import Mathlib

/-! Survey quiz: sampling, scoring and CSV ledgers.

A shallow embedding of the two programs of the repository:

* `survey-frontend/src/App.jsx`: the `complete` callback of `Papa.parse`, which numbers
  the parsed rows, groups them by category and selects the quiz samples;
* `survey-backend/app.js`: `initializeFiles`, `appendToCsv` and the `/api/submit` handler.

Conventions of the embedding.

* JavaScript strings are Lean strings (sequences of Unicode scalar values).
* `Array.prototype.sort(() => Math.random() - 0.5)` is a call to a shuffle oracle: the
  `k`-th call made by the callback returns `sh k l` for the array contents `l`.  The only
  thing known about it is that the result is a rearrangement of the input (`IsShuffle`).
* The file system is the pair of the two ledger files; a file is `none` when it does not
  exist.  Writes are assumed to succeed.
-/

namespace SurveyFrontend

/-! ## Data model (App.jsx) -/

/-- One row object produced by `Papa.parse` with `header: true`; a column that is absent
from the row reads as `undefined`, here `none`. -/
structure Row where
  text : Option String
  category : Option String
  label : Option String
deriving DecidableEq, Repr

/-- The object pushed into `categories[item.category]` (App.jsx lines 37-42). -/
structure Sample where
  text : String
  category : String
  label : Option String
  rowNum : Nat
deriving DecidableEq, Repr

/-- The `categories` object: own properties in creation order, each holding an array. -/
abbrev Categories := List (String × List Sample)

/-- The shuffle oracle: `sh k l` is the content of the array `l` after the `k`-th call of
`sort(() => Math.random() - 0.5)` made by the callback. -/
abbrev Shuffle := Nat → List Sample → List Sample

/-- Every outcome of a shuffle is a rearrangement of the array it was applied to. -/
def IsShuffle (sh : Shuffle) : Prop := ∀ k l, (sh k l).Perm l

/-- Property names that `categories[name]` finds on `Object.prototype` when `categories`
has no own property of that name; all of them are truthy and none has a `push` method. -/
def objectPrototypeKeys : List String :=
  ["constructor", "hasOwnProperty", "isPrototypeOf", "propertyIsEnumerable",
   "toLocaleString", "toString", "valueOf", "__proto__", "__defineGetter__",
   "__defineSetter__", "__lookupGetter__", "__lookupSetter__"]

/-- Truthiness of a field that is a string or `undefined`. -/
def truthyField : Option String → Bool
  | some s => s != ""
  | none => false

/-! ## Row numbering and grouping (App.jsx lines 25-44) -/

/-- The statement `categories[k].push(s)` on an own property `k`. -/
def pushTo (k : String) (s : Sample) : Categories → Categories
  | [] => []
  | e :: rest => if e.1 = k then (e.1, e.2 ++ [s]) :: rest else e :: pushTo k s rest

/-- Body of the `forEach` for an item whose `text` and `category` are truthy: create the
array when `categories[item.category]` is falsy, then push.  `none` is the `TypeError`
raised by `.push` when the name resolves to a member of `Object.prototype`. -/
def addSample (categories : Categories) (s : Sample) : Option Categories :=
  match categories.lookup s.category with
  | some _ => some (pushTo s.category s categories)
  | none =>
    if s.category ∈ objectPrototypeKeys then none
    else some (categories ++ [(s.category, [s])])

/-- The `map` that adds `rowNum: index + 1` fused with the `forEach` that groups the rows;
`index` is the index of the head of the list in `result.data`. -/
def groupRows : List Row → Nat → Categories → Option Categories
  | [], _, categories => some categories
  | item :: rest, index, categories =>
    match item.text, item.category with
    | some text, some category =>
      if truthyField (some text) && truthyField (some category) then
        match addSample categories ⟨text, category, item.label, index + 1⟩ with
        | some categories' => groupRows rest (index + 1) categories'
        | none => none
      else groupRows rest (index + 1) categories
    | _, _ => groupRows rest (index + 1) categories

/-- The `categories` object built from `result.data`. -/
def loadCategories (data : List Row) : Option Categories :=
  groupRows data 0 []

/-! ## Enumeration order of `for (let category in categories)` -/

/-- Value of a decimal digit string, most significant digit first. -/
def decimalValue : List Char → Nat → Option Nat
  | [], acc => some acc
  | c :: cs, acc =>
    if 48 ≤ c.toNat ∧ c.toNat ≤ 57 then decimalValue cs (acc * 10 + (c.toNat - 48)) else none

/-- A property name that is an array index: the canonical decimal form of an integer
below `2^32 - 1`. -/
def arrayIndex (k : String) : Option Nat :=
  match k.data with
  | [] => none
  | [c] => decimalValue [c] 0
  | c :: cs =>
    if c.toNat = 48 then none
    else match decimalValue (c :: cs) 0 with
      | some n => if n < 2 ^ 32 - 1 then some n else none
      | none => none

/-- Own properties in `for ... in` order: array-index names in ascending numeric order,
then the other names in creation order. -/
def forInEntries (categories : Categories) : Categories :=
  (categories.filter (fun e => (arrayIndex e.1).isSome)).insertionSort
      (fun a b => (arrayIndex a.1).getD 0 ≤ (arrayIndex b.1).getD 0)
    ++ categories.filter (fun e => !(arrayIndex e.1).isSome)

/-! ## Sample selection (App.jsx lines 46-108) -/

def expectedCategories : List String := ["essay", "novel", "poem", "story"]

/-- The predicate of the `filter` at lines 52-54:
`!categories[category] || categories[category].length < 2`. -/
def insufficient (categories : Categories) (category : String) : Bool :=
  match categories.lookup category with
  | none => true
  | some l => decide (l.length < 2)

def categoriesWithInsufficientSamples (categories : Categories) : List String :=
  expectedCategories.filter (insufficient categories)

/-- The array `allSamples` of the fallback branch before it is shuffled (lines 59-62). -/
def allSamples (categories : Categories) : List Sample :=
  (forInEntries categories).flatMap (fun e => e.2)

/-- The array read by `categories[category]` for a category that is not a member of
`Object.prototype`; a category without an own property holds no items. -/
def categoryItems (categories : Categories) (category : String) : List Sample :=
  (categories.lookup category).getD []

/-- The inner `for` loop of lines 74-84 from position `i` on: `shuffled` is what is left
of `shuffledCategorySamples`, the state is `(selectedSamples, selectedKeys)`. -/
def selectLoop : List Sample → Nat → List Sample × List Nat → List Sample × List Nat
  | [], _, st => st
  | sample :: rest, count, (selectedSamples, selectedKeys) =>
    if count < 2 then
      if sample.rowNum ∈ selectedKeys then selectLoop rest count (selectedSamples, selectedKeys)
      else selectLoop rest (count + 1)
        (selectedSamples ++ [sample], selectedKeys ++ [sample.rowNum])
    else (selectedSamples, selectedKeys)

/-- The `expectedCategories.forEach` of lines 69-85; `k` is the number of shuffles made
so far.  The branch is only reached when every expected category has an array. -/
def selectCategories (sh : Shuffle) (categories : Categories) :
    List String → Nat → List Sample × List Nat → List Sample × List Nat
  | [], _, st => st
  | category :: rest, k, st =>
    let shuffledCategorySamples := sh k (categoryItems categories category)
    selectCategories sh categories rest (k + 1) (selectLoop shuffledCategorySamples 0 st)

/-- The array `allRemaining` before it is shuffled (lines 88-95). -/
def allRemaining (categories : Categories) (selectedKeys : List Nat) : List Sample :=
  (forInEntries categories).flatMap
    (fun e => e.2.filter (fun sample => !decide (sample.rowNum ∈ selectedKeys)))

/-- The loop of lines 101-106 over the shuffled `allRemaining`. -/
def additionalLoop : List Sample → Nat → List Sample → List Sample
  | [], _, selectedSamples => selectedSamples
  | sample :: rest, additionalCount, selectedSamples =>
    if additionalCount < 2 then additionalLoop rest (additionalCount + 1) (selectedSamples ++ [sample])
    else selectedSamples

/-- The argument of `setSamples`: the quiz selected from the `categories` object. -/
def selectSamples (sh : Shuffle) (categories : Categories) : List Sample :=
  if (categoriesWithInsufficientSamples categories).length > 0 then
    (sh 0 (allSamples categories)).take 10
  else
    let st := selectCategories sh categories expectedCategories 0 ([], [])
    additionalLoop (sh 4 (allRemaining categories st.2)) 0 st.1

/-- The `complete` callback: `none` when it ends in a `TypeError` before `setSamples`. -/
def parseComplete (sh : Shuffle) (data : List Row) : Option (List Sample) :=
  (loadCategories data).map (selectSamples sh)

/-- The `samples` state after the load; it starts as `[]` and only `setSamples` changes it. -/
def samplesAfterLoad (sh : Shuffle) (data : List Row) : List Sample :=
  (parseComplete sh data).getD []

/-- Number of samples in the pool. -/
def poolSize (categories : Categories) : Nat :=
  (categories.flatMap (fun e => e.2)).length

/-- Row numbers of all samples of the pool. -/
def rowNums (categories : Categories) : List Nat :=
  categories.flatMap (fun e => e.2.map (fun s => s.rowNum))

/-- The items of the pool have pairwise distinct row numbers. -/
def DistinctRows (categories : Categories) : Prop := (rowNums categories).Nodup

/-! ## Concrete datasets -/

/-- A shuffle that reverses every array. -/
def reverseOrder : Shuffle := fun _ l => l.reverse

/-- A dataset row with all three columns. -/
def fullRow (text category label : String) : Row := ⟨some text, some category, some label⟩

/-- Eight rows, two in each expected category. -/
def eightRows : List Row :=
  [fullRow "t1" "essay" "ai", fullRow "t2" "essay" "human", fullRow "t3" "novel" "ai",
   fullRow "t4" "novel" "human", fullRow "t5" "poem" "ai", fullRow "t6" "poem" "human",
   fullRow "t7" "story" "ai", fullRow "t8" "story" "human"]

/-- The pool of `eightRows`. -/
def eightPool : Categories := (loadCategories eightRows).getD []

/-- Eleven rows: `eightRows`, two more essays and one row of another category. -/
def elevenRows : List Row :=
  eightRows ++ [fullRow "t9" "essay" "ai", fullRow "t10" "essay" "human", fullRow "t11" "7" "ai"]

/-- The pool of `elevenRows`. -/
def elevenPool : Categories := (loadCategories elevenRows).getD []

/-- Five rows without any story. -/
def fiveRows : List Row :=
  [fullRow "t1" "essay" "ai", fullRow "t2" "essay" "human", fullRow "t3" "novel" "ai",
   fullRow "t4" "poem" "human", fullRow "t5" "poem" "ai"]

/-- The pool of `fiveRows`. -/
def fivePool : Categories := (loadCategories fiveRows).getD []

end SurveyFrontend

namespace SurveyBackend

/-! ## JavaScript values reaching the server (app.js) -/

/-- A value of the request body as `bodyParser.json()` builds it, plus `undefined` for
the result of reading an absent property.  Numbers are the integers that a double holds
exactly (magnitude up to `2^53`), whose text is their decimal form; an object lists its
own properties, each name once. -/
inductive JSValue where
  | undefined
  | null
  | bool (b : Bool)
  | number (n : Int)
  | string (s : String)
  | array (items : List JSValue)
  | object (fields : List (String × JSValue))

/-- ToBoolean. -/
def truthy : JSValue → Bool
  | .undefined => false
  | .null => false
  | .bool b => b
  | .number n => n != 0
  | .string s => s != ""
  | .array _ => true
  | .object _ => true

/-- The expression `v.name` for a name that no built-in prototype defines (`studentId`,
`responses`, `rowNum`, `predicted`, `actual`); `none` is the `TypeError` raised when `v`
is `undefined` or `null`. -/
def getProp (v : JSValue) (name : String) : Option JSValue :=
  match v with
  | .undefined => none
  | .null => none
  | .object fields => some ((fields.lookup name).getD .undefined)
  | _ => some .undefined

/-- The test `Array.isArray`. -/
def isArray : JSValue → Bool
  | .array _ => true
  | _ => false

/-- The elements of an array; `v.length` is their number. -/
def arrayItems : JSValue → List JSValue
  | .array items => items
  | _ => []

/-- The double quote character. -/
def dquote : Char := Char.ofNat 34

/-- The line feed character. -/
def newline : Char := Char.ofNat 10

/-- The method `Array.prototype.join(sep)` on an array of strings. -/
def joinWith (sep : String) : List String → String
  | [] => ""
  | [a] => a
  | a :: b :: rest => a ++ sep ++ joinWith sep (b :: rest)

mutual
/-- The method call `v.toString()`; `none` is a `TypeError`.  An object answers
`[object Object]` unless an own property hides `Object.prototype.toString` (an own
property of a parsed body is never callable); an array joins the string forms of its
elements with commas, `null` and `undefined` elements giving the empty string. -/
def jsToString : JSValue → Option String
  | .undefined => none
  | .null => none
  | .bool b => some (if b then "true" else "false")
  | .number n => some (toString n)
  | .string s => some s
  | .array items => joinItems items
  | .object fields =>
    if fields.any (fun e => e.1 == "toString") then none else some "[object Object]"
termination_by structural v => v
/-- The method `Array.prototype.join(",")` on an array of values. -/
def joinItems : List JSValue → Option String
  | [] => some ""
  | x :: rest =>
    match (match x with
            | .undefined => some ""
            | .null => some ""
            | _ => jsToString x), joinItems rest with
    | some a, some b => some (if rest.isEmpty then a else a ++ "," ++ b)
    | _, _ => none
termination_by structural l => l
end

/-- White space and line terminators, the characters removed by `String.prototype.trim`. -/
def isJsWhitespace (c : Char) : Bool :=
  let n := c.toNat
  decide (n = 9 ∨ n = 10 ∨ n = 11 ∨ n = 12 ∨ n = 13 ∨ n = 32 ∨ n = 160 ∨ n = 5760
    ∨ (8192 ≤ n ∧ n ≤ 8202) ∨ n = 8232 ∨ n = 8233 ∨ n = 8239 ∨ n = 8287 ∨ n = 12288
    ∨ n = 65279)

/-- The method `String.prototype.trim`. -/
def jsTrim (s : String) : String :=
  ⟨((s.data.dropWhile isJsWhitespace).reverse.dropWhile isJsWhitespace).reverse⟩

/-- The call `replace` of line 63, which doubles every double quote of the text. -/
def replaceQuotes : List Char → List Char
  | [] => []
  | c :: cs => if c = dquote then dquote :: dquote :: replaceQuotes cs else c :: replaceQuotes cs

/-! ## The two ledger files -/

/-- The two paths the server writes to. -/
inductive Path where
  | resultFile
  | marksFile
deriving DecidableEq, Repr

export Path (resultFile marksFile)

/-- Content of `results/result.csv` and `results/marks.csv`; `none` when the file does
not exist. -/
structure FileSystem where
  result : Option String
  marks : Option String
deriving DecidableEq, Repr

/-- What `fs.readFileSync(path)` reads from an existing file, `none` otherwise. -/
def FileSystem.content (files : FileSystem) : Path → Option String
  | .resultFile => files.result
  | .marksFile => files.marks

def FileSystem.existsSync (files : FileSystem) (path : Path) : Bool :=
  (files.content path).isSome

def FileSystem.writeFileSync (files : FileSystem) (path : Path) (data : String) : FileSystem :=
  match path with
  | .resultFile => { files with result := some data }
  | .marksFile => { files with marks := some data }

/-- The call `fs.appendFileSync`: the file is created when it does not exist. -/
def FileSystem.appendFileSync (files : FileSystem) (path : Path) (data : String) : FileSystem :=
  files.writeFileSync path ((files.content path).getD "" ++ data)

/-- The function `initializeFiles` (app.js lines 29-41). -/
def initializeFiles (files : FileSystem) : FileSystem :=
  let files :=
    if !files.existsSync resultFile then
      files.writeFileSync resultFile "ID,Sample Number,Predicted Label,Actual Label\n"
    else files
  if !files.existsSync marksFile then
    files.writeFileSync marksFile "StudentID,Marks\n"
  else files

/-! ## `appendToCsv` (app.js lines 45-77) -/

/-- One entry of a `headers` array. -/
structure Header where
  id : String
  title : String
deriving DecidableEq, Repr

/-- A record object: its own properties. -/
abbrev Record := List (String × JSValue)

def resultHeaders : List Header :=
  [⟨"id", "ID"⟩, ⟨"sampleNumber", "Sample Number"⟩,
   ⟨"predictedLabel", "Predicted Label"⟩, ⟨"actualLabel", "Actual Label"⟩]

def marksHeaders : List Header :=
  [⟨"studentID", "StudentID"⟩, ⟨"marks", "Marks"⟩]

/-- The expression `record[header.id] || ''`. -/
def fieldValue (record : Record) (header : Header) : JSValue :=
  let v := (record.lookup header.id).getD .undefined
  if truthy v then v else .string ""

/-- The callback of `headers.map` (lines 53-64): the text of one field. -/
def renderField (filePath : Path) (record : Record) (header : Header) : Option String :=
  match jsToString (fieldValue record header) with
  | none => none
  | some str =>
    if filePath = marksFile then some str
    else some (String.mk ([dquote] ++ replaceQuotes str.data ++ [dquote]))

/-- The array `headers.map(...)` for one record: the texts of its fields, or the `TypeError`. -/
def renderFields (filePath : Path) (record : Record) : List Header → Option (List String)
  | [] => some []
  | header :: rest =>
    match renderField filePath record header, renderFields filePath record rest with
    | some f, some fs => some (f :: fs)
    | _, _ => none

/-- The callback of `records.map` (lines 52-65): one record as a line of text. -/
def renderRecord (filePath : Path) (headers : List Header) (record : Record) : Option String :=
  (renderFields filePath record headers).map (joinWith ",")

/-- The array `records.map(...)`: the lines of all records, or the `TypeError`. -/
def renderRecords (filePath : Path) (headers : List Header) : List Record → Option (List String)
  | [] => some []
  | record :: rest =>
    match renderRecord filePath headers record, renderRecords filePath headers rest with
    | some line, some lines => some (line :: lines)
    | _, _ => none

/-- The constant `csvString` (lines 52-65). -/
def csvString (filePath : Path) (records : List Record) (headers : List Header) :
    Option String :=
  (renderRecords filePath headers records).map (joinWith "\n")

/-- The call `appendToCsv(filePath, records, headers)`; `none` when a `TypeError` is raised, which
happens before anything is written. -/
def appendToCsv (files : FileSystem) (filePath : Path) (records : List Record)
    (headers : List Header) : Option FileSystem :=
  let fileExists := files.existsSync filePath
  let headerString := joinWith "," (headers.map (fun h => h.title))
  let isEmpty := !fileExists || jsTrim ((files.content filePath).getD "") == headerString
  match csvString filePath records headers with
  | none => none
  | some csv =>
    let contentToAppend := (if !isEmpty then "\n" else "") ++ csv
    some (files.appendFileSync filePath contentToAppend)

/-! ## The handler of `POST /api/submit` (app.js lines 80-140) -/

/-- What the handler sends back. -/
inductive HttpResponse where
  /-- Status 200 with `marks: correctCount`. -/
  | ok (marks : Nat)
  /-- Status 400, `Invalid submission data`. -/
  | badRequest
  /-- Status 500, sent from the `catch` block. -/
  | internalServerError
deriving DecidableEq, Repr

/-- The receiver of `.toLowerCase()` must be a string; anything else is a `TypeError`. -/
def asString : Option JSValue → Option String
  | some (.string s) => some s
  | _ => none

/-- The constant `isCorrect` (line 94). -/
def isCorrect (toLowerCase : String → String) (response : JSValue) : Option Bool :=
  match asString (getProp response "predicted"), asString (getProp response "actual") with
  | some predicted, some actual => some (toLowerCase predicted == toLowerCase actual)
  | _, _ => none

/-- The `responses.map` of lines 93-103 together with the counter it updates: the
records and the final `correctCount`, or the `TypeError`. -/
def scoreResponses (toLowerCase : String → String) (studentId : JSValue) :
    List JSValue → Nat → Option (List Record × Nat)
  | [], correctCount => some ([], correctCount)
  | response :: rest, correctCount =>
    match isCorrect toLowerCase response with
    | none => none
    | some correct =>
      let record : Record :=
        [("id", studentId),
         ("sampleNumber", (getProp response "rowNum").getD .undefined),
         ("predictedLabel", (getProp response "predicted").getD .undefined),
         ("actualLabel", (getProp response "actual").getD .undefined)]
      match scoreResponses toLowerCase studentId rest
          (if correct then correctCount + 1 else correctCount) with
      | none => none
      | some (records, total) => some (record :: records, total)

/-- The handler: the response and the files it leaves.  `toLowerCase` is
`String.prototype.toLowerCase`; the destructuring of `req.body` raises a `TypeError`
when the body is `undefined` or `null`, and every error ends in the `catch` block. -/
def submit (toLowerCase : String → String) (files : FileSystem) (body : JSValue) :
    HttpResponse × FileSystem :=
  let files := initializeFiles files
  match getProp body "studentId", getProp body "responses" with
  | some studentId, some responses =>
    if !truthy studentId || !truthy responses || !isArray responses
        || (arrayItems responses).length == 0 then
      (.badRequest, files)
    else
      match scoreResponses toLowerCase studentId (arrayItems responses) 0 with
      | none => (.internalServerError, files)
      | some (records, correctCount) =>
        match appendToCsv files resultFile records resultHeaders with
        | none => (.internalServerError, files)
        | some files1 =>
          let marksRecord : Record :=
            [("studentID", studentId), ("marks", .number (Int.ofNat correctCount))]
          match appendToCsv files1 marksFile [marksRecord] marksHeaders with
          | none => (.internalServerError, files1)
          | some files2 => (.ok correctCount, files2)
  | _, _ => (.internalServerError, files)

/-! ## Sequences of appends and reading a ledger back -/

/-- The `headers` argument that the handler passes with each path (lines 113 and 128). -/
def headersOf : Path → List Header
  | .resultFile => resultHeaders
  | .marksFile => marksHeaders

/-- The constant `headerString` of `appendToCsv` for a ledger. -/
def headerString (filePath : Path) : String :=
  joinWith "," ((headersOf filePath).map (fun h => h.title))

/-- One call of `appendToCsv` on a ledger as the server survives it: a call that raises
a `TypeError` has written nothing. -/
def appendStep (filePath : Path) (files : FileSystem) (records : List Record) : FileSystem :=
  (appendToCsv files filePath records (headersOf filePath)).getD files

/-- Successive calls of `appendToCsv` on one ledger, one call per element of `batches`. -/
def appendAll (filePath : Path) : FileSystem → List (List Record) → FileSystem
  | files, [] => files
  | files, records :: rest => appendAll filePath (appendStep filePath files records) rest

/-- The lines that the calls of `appendAll` render, in call order. -/
def appendedLines (filePath : Path) (batches : List (List Record)) : List String :=
  batches.flatMap (fun records => (renderRecords filePath (headersOf filePath) records).getD [])

/-- The lines of a text file: every line feed ends a line, and text after the last line
feed is a last line. -/
def fileLines : List Char → List (List Char)
  | [] => []
  | c :: cs =>
    if c = newline then [] :: fileLines cs
    else
      match fileLines cs with
      | line :: lines => (c :: line) :: lines
      | [] => [[c]]

/-- States of the reader of a comma-separated record. -/
inductive ReaderState where
  /-- At the first character of a field. -/
  | fieldStart
  /-- Inside a field that did not open with a double quote. -/
  | bare
  /-- Inside a quoted field. -/
  | quoted
  /-- Just after a double quote met inside a quoted field. -/
  | quoteSeen
deriving DecidableEq, Repr

/-- Standard reading of one comma-separated record with doubled-quote escaping: a field
that opens with a double quote runs to the next double quote that is not doubled, a
doubled double quote inside it stands for one, and commas and line feeds inside it belong
to the value; outside quotes a comma ends the field and a line feed ends the record.
The result is the fields of the record and the input left after it; `none` when the
input is malformed.  `done` holds the fields read so far and `cur` the current one. -/
def readRecord : ReaderState → List String → List Char → List Char →
    Option (List String × List Char)
  | .fieldStart, done, _, [] => some (done ++ [""], [])
  | .bare, done, cur, [] => some (done ++ [String.mk cur], [])
  | .quoted, _, _, [] => none
  | .quoteSeen, done, cur, [] => some (done ++ [String.mk cur], [])
  | .fieldStart, done, cur, c :: cs =>
    if c = dquote then readRecord .quoted done [] cs
    else if c = ',' then readRecord .fieldStart (done ++ [""]) [] cs
    else if c = newline then some (done ++ [""], cs)
    else readRecord .bare done (cur ++ [c]) cs
  | .bare, done, cur, c :: cs =>
    if c = ',' then readRecord .fieldStart (done ++ [String.mk cur]) [] cs
    else if c = newline then some (done ++ [String.mk cur], cs)
    else readRecord .bare done (cur ++ [c]) cs
  | .quoted, done, cur, c :: cs =>
    if c = dquote then readRecord .quoteSeen done cur cs
    else readRecord .quoted done (cur ++ [c]) cs
  | .quoteSeen, done, cur, c :: cs =>
    if c = dquote then readRecord .quoted done (cur ++ [c]) cs
    else if c = ',' then readRecord .fieldStart (done ++ [String.mk cur]) [] cs
    else if c = newline then some (done ++ [String.mk cur], cs)
    else none

/-- The quoted form of a value in the words of the specification: a double quote, the
value with every double quote doubled, and a closing double quote. -/
def quotedField (v : String) : String :=
  String.mk ([dquote] ++ v.data.flatMap (fun c => if c = dquote then [dquote, dquote] else [c])
    ++ [dquote])

/-- Reading the first record of a text. -/
def readCsvRecord (text : String) : Option (List String × List Char) :=
  readRecord .fieldStart [] [] text.data

/-! ## The request sent by the form (App.jsx lines 116-129) -/

/-- One element of `backendResponses` whose three fields are present. -/
structure Answer where
  rowNum : Nat
  predicted : String
  actual : String
deriving DecidableEq, Repr

/-- The object literal of lines 120-124. -/
def Answer.toJSValue (a : Answer) : JSValue :=
  .object [("rowNum", .number (Int.ofNat a.rowNum)), ("predicted", .string a.predicted),
           ("actual", .string a.actual)]

/-- The constant `submissionData` (lines 126-129) as the server parses it. -/
def submissionData (studentId : String) (answers : List Answer) : JSValue :=
  .object [("studentId", .string studentId),
           ("responses", .array (answers.map Answer.toJSValue))]

/-- Lower-casing of the letters `A`-`Z`, the restriction of `toLowerCase` to ASCII. -/
def asciiLower (s : String) : String := ⟨s.data.map Char.toLower⟩

end SurveyBackend

/-! # Theorems -/

namespace SurveyFrontend

/-! ## The two selection loops -/

theorem selectLoop_eq_take (l : List Sample) :
    ∀ (count : Nat) (sel : List Sample) (keys : List Nat),
      (l.map (fun s => s.rowNum)).Nodup → (∀ s ∈ l, s.rowNum ∉ keys) →
      selectLoop l count (sel, keys)
        = (sel ++ l.take (2 - count), keys ++ (l.take (2 - count)).map (fun s => s.rowNum)) := by
  induction l with
  | nil => intro count sel keys _ _; simp [selectLoop]
  | cons a rest ih =>
    intro count sel keys hnd hk
    have ha : a.rowNum ∉ keys := hk a (List.mem_cons_self _ _)
    rw [List.map_cons, List.nodup_cons] at hnd
    by_cases hc : count < 2
    · have hrest : ∀ s ∈ rest, s.rowNum ∉ keys ++ [a.rowNum] := by
        intro s hs hmem
        rcases List.mem_append.1 hmem with h | h
        · exact hk s (List.mem_cons_of_mem _ hs) h
        · have : s.rowNum = a.rowNum := by simpa using h
          exact hnd.1 (this ▸ List.mem_map_of_mem (fun s => s.rowNum) hs)
      have h2 : 2 - count = (2 - (count + 1)) + 1 := by omega
      rw [selectLoop, if_pos hc, if_neg ha, ih (count + 1) _ _ hnd.2 hrest, h2]
      simp [List.take_succ_cons]
    · have h0 : 2 - count = 0 := by omega
      rw [selectLoop, if_neg hc, h0]
      simp

theorem additionalLoop_eq_take (l : List Sample) :
    ∀ (c : Nat) (sel : List Sample), additionalLoop l c sel = sel ++ l.take (2 - c) := by
  induction l with
  | nil => intro c sel; simp [additionalLoop]
  | cons a rest ih =>
    intro c sel
    by_cases hc : c < 2
    · have h2 : 2 - c = (2 - (c + 1)) + 1 := by omega
      rw [additionalLoop, if_pos hc, ih, h2]
      simp [List.take_succ_cons]
    · have h0 : 2 - c = 0 := by omega
      rw [additionalLoop, if_neg hc, h0]
      simp

/-! ## Enumeration order -/

theorem forInEntries_perm (categories : Categories) :
    (forInEntries categories).Perm categories := by
  unfold forInEntries
  refine ((List.perm_insertionSort _ _).append_right _).trans ?_
  exact List.filter_append_perm _ _

theorem allSamples_perm (categories : Categories) :
    (allSamples categories).Perm (categories.flatMap (fun e => e.2)) :=
  (forInEntries_perm categories).flatMap_right _

theorem allSamples_length (categories : Categories) :
    (allSamples categories).length = poolSize categories :=
  (allSamples_perm categories).length_eq

theorem allSamples_rowNums (categories : Categories) :
    ((allSamples categories).map (fun s => s.rowNum)).Perm (rowNums categories) := by
  have h := (allSamples_perm categories).map (fun s => s.rowNum)
  rwa [List.map_flatMap] at h

theorem allRemaining_eq_filter (categories : Categories) (keys : List Nat) :
    allRemaining categories keys
      = (allSamples categories).filter (fun s => !decide (s.rowNum ∈ keys)) := by
  unfold allRemaining allSamples
  rw [List.filter_flatMap]

/-! ## Lookup in a pool with distinct row numbers -/

theorem lookup_mem {k : String} {l : List Sample} :
    ∀ {categories : Categories}, categories.lookup k = some l → (k, l) ∈ categories := by
  intro categories
  induction categories with
  | nil => intro h; simp at h
  | cons e rest ih =>
    intro h
    obtain ⟨k', l'⟩ := e
    by_cases hk : k = k'
    · subst hk
      simp [List.lookup] at h
      simp [h]
    · have : (k == k') = false := by simpa using hk
      rw [List.lookup, this] at h
      exact List.mem_cons_of_mem _ (ih h)

theorem mem_allSamples {k : String} {l : List Sample} {categories : Categories}
    (h : categories.lookup k = some l) {x : Sample} (hx : x ∈ l) : x ∈ allSamples categories := by
  refine (allSamples_perm categories).mem_iff.2 ?_
  exact List.mem_flatMap.2 ⟨(k, l), lookup_mem h, hx⟩

theorem lookup_rows_nodup {k : String} {l : List Sample} {categories : Categories}
    (hd : DistinctRows categories) (h : categories.lookup k = some l) :
    (l.map (fun s => s.rowNum)).Nodup :=
  (List.nodup_flatMap.1 hd).1 (k, l) (lookup_mem h)

theorem lookup_rows_disjoint {a b : String} {la lb : List Sample} {categories : Categories}
    (hd : DistinctRows categories) (hab : a ≠ b)
    (ha : categories.lookup a = some la) (hb : categories.lookup b = some lb) :
    ∀ x ∈ la, ∀ y ∈ lb, x.rowNum ≠ y.rowNum := by
  intro x hx y hy hxy
  have hp := (List.nodup_flatMap.1 hd).2
  have hsym : Symmetric (fun (e₁ e₂ : String × List Sample) =>
      List.Disjoint (e₁.2.map (fun s => s.rowNum)) (e₂.2.map (fun s => s.rowNum))) :=
    fun _ _ h => h.symm
  have hne : (a, la) ≠ (b, lb) := fun h => hab (congrArg Prod.fst h)
  have hdis := List.Pairwise.forall hsym hp (lookup_mem ha) (lookup_mem hb) hne
  exact hdis (List.mem_map_of_mem (fun s => s.rowNum) hx)
    (hxy ▸ List.mem_map_of_mem (fun s => s.rowNum) hy)

/-! ## The stratified branch -/

theorem mem_of_mem_shuffle_take {sh : Shuffle} (hsh : IsShuffle sh) {k n : Nat}
    {l : List Sample} {x : Sample} (hx : x ∈ (sh k l).take n) : x ∈ l :=
  (hsh k l).mem_iff.1 (List.mem_of_mem_take hx)

theorem shuffle_take_length {sh : Shuffle} (hsh : IsShuffle sh) (k : Nat)
    {l : List Sample} (h2 : 2 ≤ l.length) : ((sh k l).take 2).length = 2 := by
  rw [List.length_take, (hsh k l).length_eq]
  omega

theorem shuffle_rows_nodup {sh : Shuffle} (hsh : IsShuffle sh) (k : Nat)
    {l : List Sample} (hnd : (l.map (fun s => s.rowNum)).Nodup) :
    ((sh k l).map (fun s => s.rowNum)).Nodup :=
  (((hsh k l).map (fun s => s.rowNum)).nodup_iff).2 hnd

/-- One round of the `forEach`: when no row number of the category is selected yet, the
round selects the first two samples of the shuffled category. -/
theorem selectLoop_category {sh : Shuffle} (hsh : IsShuffle sh) {categories : Categories}
    (hd : DistinctRows categories) {c : String} {l : List Sample}
    (hl : categories.lookup c = some l) (k : Nat) (sel : List Sample) (keys : List Nat)
    (hkeys : ∀ y ∈ l, y.rowNum ∉ keys) :
    selectLoop (sh k l) 0 (sel, keys)
      = (sel ++ (sh k l).take 2, keys ++ ((sh k l).take 2).map (fun s => s.rowNum)) := by
  have h := selectLoop_eq_take (sh k l) 0 sel keys
    (shuffle_rows_nodup hsh k (lookup_rows_nodup hd hl))
    (fun s hs => hkeys s ((hsh k l).mem_iff.1 hs))
  simpa using h

theorem picks_rows_disjoint {sh : Shuffle} (hsh : IsShuffle sh) {categories : Categories}
    (hd : DistinctRows categories) {a b : String} {la lb : List Sample} (hab : a ≠ b)
    (ha : categories.lookup a = some la) (hb : categories.lookup b = some lb) (k : Nat) :
    ∀ y ∈ lb, y.rowNum ∉ ((sh k la).take 2).map (fun s => s.rowNum) := by
  intro y hy hmem
  obtain ⟨x, hx, hxy⟩ := List.mem_map.1 hmem
  exact lookup_rows_disjoint hd hab ha hb x (mem_of_mem_shuffle_take hsh hx) y hy hxy

theorem not_insufficient {categories : Categories} {c : String} {l : List Sample}
    (hl : categories.lookup c = some l) (h2 : 2 ≤ l.length) :
    insufficient categories c = false := by
  simp only [insufficient, hl]
  simpa using h2

/-- Closed form of the stratified branch: two samples from the head of each shuffled
category, in the order of `expectedCategories`, then at most two from the head of the
shuffled remainder. -/
theorem selectSamples_stratified {sh : Shuffle} (hsh : IsShuffle sh) {categories : Categories}
    (hd : DistinctRows categories) {essay novel poem story : List Sample}
    (he : categories.lookup "essay" = some essay) (hn : categories.lookup "novel" = some novel)
    (hp : categories.lookup "poem" = some poem) (hs : categories.lookup "story" = some story)
    (he2 : 2 ≤ essay.length) (hn2 : 2 ≤ novel.length)
    (hp2 : 2 ≤ poem.length) (hs2 : 2 ≤ story.length) :
    selectSamples sh categories
      = ((sh 0 essay).take 2 ++ (sh 1 novel).take 2 ++ (sh 2 poem).take 2 ++ (sh 3 story).take 2)
        ++ (sh 4 (allRemaining categories
              (((sh 0 essay).take 2 ++ (sh 1 novel).take 2 ++ (sh 2 poem).take 2
                ++ (sh 3 story).take 2).map (fun s => s.rowNum)))).take 2 := by
  have hins : categoriesWithInsufficientSamples categories = [] := by
    simp [categoriesWithInsufficientSamples, expectedCategories, List.filter,
      not_insufficient he he2, not_insufficient hn hn2, not_insufficient hp hp2,
      not_insufficient hs hs2]
  have hE := selectLoop_category hsh hd he 0 [] [] (fun _ _ h => by simp at h)
  have hN := selectLoop_category hsh hd hn 1 ([] ++ (sh 0 essay).take 2)
    ([] ++ ((sh 0 essay).take 2).map (fun s => s.rowNum)) (by
      intro y hy
      simpa using picks_rows_disjoint hsh hd (by decide) he hn 0 y hy)
  have hP := selectLoop_category hsh hd hp 2
    ([] ++ (sh 0 essay).take 2 ++ (sh 1 novel).take 2)
    ([] ++ ((sh 0 essay).take 2).map (fun s => s.rowNum)
      ++ ((sh 1 novel).take 2).map (fun s => s.rowNum)) (by
      intro y hy hmem
      rcases List.mem_append.1 hmem with h | h
      · exact picks_rows_disjoint hsh hd (by decide) he hp 0 y hy (by simpa using h)
      · exact picks_rows_disjoint hsh hd (by decide) hn hp 1 y hy h)
  have hS := selectLoop_category hsh hd hs 3
    ([] ++ (sh 0 essay).take 2 ++ (sh 1 novel).take 2 ++ (sh 2 poem).take 2)
    ([] ++ ((sh 0 essay).take 2).map (fun s => s.rowNum)
      ++ ((sh 1 novel).take 2).map (fun s => s.rowNum)
      ++ ((sh 2 poem).take 2).map (fun s => s.rowNum)) (by
      intro y hy hmem
      rcases List.mem_append.1 hmem with h | h
      · rcases List.mem_append.1 h with h | h
        · exact picks_rows_disjoint hsh hd (by decide) he hs 0 y hy (by simpa using h)
        · exact picks_rows_disjoint hsh hd (by decide) hn hs 1 y hy h
      · exact picks_rows_disjoint hsh hd (by decide) hp hs 2 y hy h)
  have hsel : selectCategories sh categories expectedCategories 0 ([], [])
      = ((sh 0 essay).take 2 ++ (sh 1 novel).take 2 ++ (sh 2 poem).take 2 ++ (sh 3 story).take 2,
         ((sh 0 essay).take 2 ++ (sh 1 novel).take 2 ++ (sh 2 poem).take 2
            ++ (sh 3 story).take 2).map (fun s => s.rowNum)) := by
    simp only [expectedCategories, selectCategories, categoryItems, he, hn, hp, hs,
      Option.getD_some]
    rw [hE, hN, hP, hS]
    simp
  unfold selectSamples
  rw [hins, hsel, additionalLoop_eq_take]
  simp

theorem lookup_of_two_le {categories : Categories} {c : String}
    (h : 2 ≤ (categoryItems categories c).length) :
    categories.lookup c = some (categoryItems categories c) := by
  unfold categoryItems at h ⊢
  cases hl : categories.lookup c with
  | none => rw [hl] at h; simp at h
  | some l => rfl

/-- The row numbers of the eight per-category picks are pairwise distinct. -/
theorem picks_rows_nodup {sh : Shuffle} (hsh : IsShuffle sh) {categories : Categories}
    (hd : DistinctRows categories) {essay novel poem story : List Sample}
    (he : categories.lookup "essay" = some essay) (hn : categories.lookup "novel" = some novel)
    (hp : categories.lookup "poem" = some poem) (hs : categories.lookup "story" = some story) :
    (((sh 0 essay).take 2 ++ (sh 1 novel).take 2 ++ (sh 2 poem).take 2
        ++ (sh 3 story).take 2).map (fun s => s.rowNum)).Nodup := by
  have hE := (shuffle_rows_nodup hsh 0 (lookup_rows_nodup hd he)).sublist
    ((List.take_sublist 2 (sh 0 essay)).map _)
  have hN := (shuffle_rows_nodup hsh 1 (lookup_rows_nodup hd hn)).sublist
    ((List.take_sublist 2 (sh 1 novel)).map _)
  have hP := (shuffle_rows_nodup hsh 2 (lookup_rows_nodup hd hp)).sublist
    ((List.take_sublist 2 (sh 2 poem)).map _)
  have hS := (shuffle_rows_nodup hsh 3 (lookup_rows_nodup hd hs)).sublist
    ((List.take_sublist 2 (sh 3 story)).map _)
  simp only [List.map_append]
  refine List.Nodup.append (List.Nodup.append (List.Nodup.append hE hN ?_) hP ?_) hS ?_
  · intro r hr hr'
    obtain ⟨y, hy, rfl⟩ := List.mem_map.1 hr'
    exact picks_rows_disjoint hsh hd (by decide) he hn 0 y (mem_of_mem_shuffle_take hsh hy) hr
  · intro r hr hr'
    obtain ⟨y, hy, rfl⟩ := List.mem_map.1 hr'
    have hy' := mem_of_mem_shuffle_take hsh hy
    rcases List.mem_append.1 hr with h | h
    · exact picks_rows_disjoint hsh hd (by decide) he hp 0 y hy' h
    · exact picks_rows_disjoint hsh hd (by decide) hn hp 1 y hy' h
  · intro r hr hr'
    obtain ⟨y, hy, rfl⟩ := List.mem_map.1 hr'
    have hy' := mem_of_mem_shuffle_take hsh hy
    rcases List.mem_append.1 hr with h | h
    · rcases List.mem_append.1 h with h | h
      · exact picks_rows_disjoint hsh hd (by decide) he hs 0 y hy' h
      · exact picks_rows_disjoint hsh hd (by decide) hn hs 1 y hy' h
    · exact picks_rows_disjoint hsh hd (by decide) hp hs 2 y hy' h

theorem allSamples_rows_nodup {categories : Categories} (hd : DistinctRows categories) :
    ((allSamples categories).map (fun s => s.rowNum)).Nodup :=
  ((allSamples_rowNums categories).nodup_iff).2 hd

/-- Size of the remainder once `picks` have been selected from the pool. -/
theorem allRemaining_length {categories : Categories} (hd : DistinctRows categories)
    (picks : List Sample) (hsub : ∀ x ∈ picks, x ∈ allSamples categories)
    (hnd : (picks.map (fun s => s.rowNum)).Nodup) :
    (allRemaining categories (picks.map (fun s => s.rowNum))).length
      = poolSize categories - picks.length := by
  have hA := allSamples_rows_nodup hd
  have hinj := List.inj_on_of_nodup_map hA
  have hperm : ((allSamples categories).filter
      (fun s => decide (s.rowNum ∈ picks.map (fun s => s.rowNum)))).Perm picks := by
    refine (List.perm_ext_iff_of_nodup ((List.Nodup.of_map _ hA).filter _)
      (List.Nodup.of_map _ hnd)).2 ?_
    intro x
    constructor
    · intro hx
      obtain ⟨hxA, hxk⟩ := List.mem_filter.1 hx
      obtain ⟨y, hy, hyx⟩ := List.mem_map.1 (of_decide_eq_true hxk)
      have : y = x := hinj (hsub y hy) hxA hyx
      exact this ▸ hy
    · intro hx
      exact List.mem_filter.2 ⟨hsub x hx, decide_eq_true (List.mem_map_of_mem _ hx)⟩
  have hlen := List.length_eq_length_filter_add (l := allSamples categories)
    (fun s => decide (s.rowNum ∈ picks.map (fun s => s.rowNum)))
  rw [allRemaining_eq_filter, ← allSamples_length]
  rw [hperm.length_eq] at hlen
  omega

theorem mem_allRemaining {categories : Categories} {keys : List Nat} {x : Sample}
    (hx : x ∈ allRemaining categories keys) : x ∈ allSamples categories ∧ x.rowNum ∉ keys := by
  rw [allRemaining_eq_filter] at hx
  obtain ⟨h1, h2⟩ := List.mem_filter.1 hx
  exact ⟨h1, by simpa using h2⟩

/-! ## The loader assigns distinct row numbers -/

theorem rowNums_pushTo (k : String) (s : Sample) :
    ∀ (categories : Categories) (l : List Sample), categories.lookup k = some l →
      (rowNums (pushTo k s categories)).Perm (s.rowNum :: rowNums categories) := by
  intro categories
  induction categories with
  | nil => intro l h; simp at h
  | cons e rest ih =>
    intro l h
    obtain ⟨k', l'⟩ := e
    by_cases hk : k' = k
    · subst hk
      simp only [pushTo, if_true, rowNums, List.flatMap_cons, List.map_append, List.map_cons,
        List.map_nil]
      rw [List.append_assoc]
      exact List.perm_middle
    · have hb : (k == k') = false := by simpa using fun h' : k = k' => hk h'.symm
      rw [List.lookup, hb] at h
      have ih' := ih l h
      simp only [pushTo, if_neg hk, rowNums, List.flatMap_cons] at ih' ⊢
      exact (ih'.append_left _).trans List.perm_middle

theorem rowNums_addSample {categories categories' : Categories} {s : Sample}
    (h : addSample categories s = some categories') :
    (rowNums categories').Perm (s.rowNum :: rowNums categories) := by
  unfold addSample at h
  cases hl : categories.lookup s.category with
  | some l =>
    rw [hl] at h
    cases h
    exact rowNums_pushTo _ _ _ l hl
  | none =>
    rw [hl] at h
    by_cases hk : s.category ∈ objectPrototypeKeys
    · simp [hk] at h
    · simp only [hk, if_false, Option.some.injEq] at h
      subst h
      simp only [rowNums, List.flatMap_append, List.flatMap_cons, List.flatMap_nil,
        List.map_cons, List.map_nil, List.append_nil]
      exact (List.perm_append_comm).trans (List.Perm.refl _)

theorem groupRows_distinct (data : List Row) :
    ∀ (index : Nat) (categories out : Categories),
      (rowNums categories).Nodup → (∀ n ∈ rowNums categories, n ≤ index) →
      groupRows data index categories = some out → DistinctRows out := by
  induction data with
  | nil =>
    intro index categories out hnd _ h
    simp only [groupRows, Option.some.injEq] at h
    exact h ▸ hnd
  | cons item rest ih =>
    intro index categories out hnd hle h
    have hskip : groupRows rest (index + 1) categories = some out → DistinctRows out :=
      ih (index + 1) categories out hnd (fun n hn => Nat.le_succ_of_le (hle n hn))
    unfold groupRows at h
    split at h
    · split at h
      · split at h
        · rename_i categories' hadd
          have hperm := rowNums_addSample hadd
          refine ih (index + 1) categories' out ?_ ?_ h
          · refine (hperm.nodup_iff).2 (List.nodup_cons.2 ⟨?_, hnd⟩)
            intro hmem
            have := hle _ hmem
            simp at this
          · intro n hn
            rcases List.mem_cons.1 (hperm.mem_iff.1 hn) with h' | h'
            · simp [h']
            · exact Nat.le_succ_of_le (hle n h')
        · exact absurd h (by simp)
      · exact hskip h
    · exact hskip h

theorem loadCategories_distinct {data : List Row} {categories : Categories}
    (h : loadCategories data = some categories) : DistinctRows categories :=
  groupRows_distinct data 0 [] categories (by simp [rowNums]) (by simp [rowNums]) h

theorem groupRows_isSome (data : List Row)
    (hk : ∀ r ∈ data, ∀ c, r.category = some c → c ∉ objectPrototypeKeys) :
    ∀ (index : Nat) (categories : Categories), (groupRows data index categories).isSome := by
  induction data with
  | nil => intro index categories; simp [groupRows]
  | cons item rest ih =>
    intro index categories
    have ih' := ih (fun r hr => hk r (List.mem_cons_of_mem _ hr))
    unfold groupRows
    split
    · rename_i text category _ hc
      split
      · have hnot := hk item (List.mem_cons_self _ _) category hc
        simp only [addSample]
        cases categories.lookup category with
        | some l => exact ih' _ _
        | none => simp only [hnot, if_false]; exact ih' _ _
      · exact ih' _ _
    · exact ih' _ _

/-! ## Distinct row numbers in the quiz -/

theorem insufficient_false {categories : Categories} {c : String}
    (h : insufficient categories c = false) : 2 ≤ (categoryItems categories c).length := by
  unfold insufficient at h
  unfold categoryItems
  cases hl : categories.lookup c with
  | none => rw [hl] at h; simp at h
  | some l => rw [hl] at h; simpa using h

theorem selectSamples_rows_nodup {sh : Shuffle} (hsh : IsShuffle sh) {categories : Categories}
    (hd : DistinctRows categories) :
    ((selectSamples sh categories).map (fun s => s.rowNum)).Nodup := by
  by_cases hins : (categoriesWithInsufficientSamples categories).length > 0
  · unfold selectSamples
    rw [if_pos hins]
    refine List.Nodup.sublist ((List.take_sublist _ _).map _) ?_
    exact (((hsh 0 _).map (fun s => s.rowNum)).nodup_iff).2 (allSamples_rows_nodup hd)
  · have hnil : categoriesWithInsufficientSamples categories = [] := by
      cases hc : categoriesWithInsufficientSamples categories with
      | nil => rfl
      | cons a l => rw [hc] at hins; simp at hins
    have hall : ∀ c ∈ expectedCategories, insufficient categories c = false := by
      intro c hc
      have := List.filter_eq_nil_iff.1 hnil c hc
      simpa using this
    have he := lookup_of_two_le (insufficient_false (hall "essay" (by decide)))
    have hn := lookup_of_two_le (insufficient_false (hall "novel" (by decide)))
    have hp := lookup_of_two_le (insufficient_false (hall "poem" (by decide)))
    have hs := lookup_of_two_le (insufficient_false (hall "story" (by decide)))
    rw [selectSamples_stratified hsh hd he hn hp hs
      (insufficient_false (hall "essay" (by decide)))
      (insufficient_false (hall "novel" (by decide)))
      (insufficient_false (hall "poem" (by decide)))
      (insufficient_false (hall "story" (by decide))), List.map_append]
    refine List.Nodup.append (picks_rows_nodup hsh hd he hn hp hs) ?_ ?_
    · refine List.Nodup.sublist ((List.take_sublist _ _).map _) ?_
      refine (((hsh 4 _).map (fun s => s.rowNum)).nodup_iff).2 ?_
      rw [allRemaining_eq_filter]
      exact List.Nodup.sublist ((List.filter_sublist _).map _) (allSamples_rows_nodup hd)
    · intro r hr hr'
      obtain ⟨w, hw, rfl⟩ := List.mem_map.1 hr'
      exact (mem_allRemaining (mem_of_mem_shuffle_take hsh hw)).2 hr

/-! ## Claims about the sampler -/

theorem isShuffle_reverseOrder : IsShuffle reverseOrder := fun _ l => List.reverse_perm l

/-- C1 (as stated, refuted): the pool of `eightRows` holds two items in each of essay,
novel, poem and story, yet the quiz selected from it has 8 items, not 10, because no
item is left for the wildcard picks. -/
theorem stratified_length_eight_pool :
    IsShuffle reverseOrder
      ∧ loadCategories eightRows = some eightPool
      ∧ (∀ c ∈ expectedCategories, 2 ≤ (categoryItems eightPool c).length)
      ∧ (selectSamples reverseOrder eightPool).length = 8
      ∧ (selectSamples reverseOrder eightPool).length ≠ 10 :=
  ⟨isShuffle_reverseOrder, by decide, by decide, by decide, by decide⟩

/-- C1 (amended): when every expected category holds at least 2 items and row numbers
are distinct, the quiz is `e ++ n ++ p ++ s ++ w`: exactly 2 picks from the essay array,
2 from the novel array, 2 from the poem array and 2 from the story array, followed by
exactly `min 2 (poolSize - 8)` wildcard picks, which are items of the pool that repeat
none of the 8 picks; so the length is `8 + min 2 (poolSize - 8)`, which is 10 exactly
when the pool holds at least 10 items. -/
theorem stratified_size_and_composition (sh : Shuffle) (categories : Categories)
    (hsh : IsShuffle sh) (hd : DistinctRows categories)
    (h2 : ∀ c ∈ expectedCategories, 2 ≤ (categoryItems categories c).length) :
    ∃ e n p s w : List Sample,
      selectSamples sh categories = e ++ n ++ p ++ s ++ w
      ∧ e.length = 2 ∧ n.length = 2 ∧ p.length = 2 ∧ s.length = 2
      ∧ (∀ x ∈ e, x ∈ categoryItems categories "essay")
      ∧ (∀ x ∈ n, x ∈ categoryItems categories "novel")
      ∧ (∀ x ∈ p, x ∈ categoryItems categories "poem")
      ∧ (∀ x ∈ s, x ∈ categoryItems categories "story")
      ∧ w.length = min 2 (poolSize categories - 8)
      ∧ (∀ x ∈ w, x ∈ categories.flatMap (fun entry => entry.2))
      ∧ (∀ x ∈ w, ∀ y ∈ e ++ n ++ p ++ s, x.rowNum ≠ y.rowNum)
      ∧ (selectSamples sh categories).length = 8 + min 2 (poolSize categories - 8)
      ∧ (10 ≤ poolSize categories → (selectSamples sh categories).length = 10) := by
  have e2 := h2 "essay" (by decide)
  have n2 := h2 "novel" (by decide)
  have p2 := h2 "poem" (by decide)
  have s2 := h2 "story" (by decide)
  have he := lookup_of_two_le e2
  have hn := lookup_of_two_le n2
  have hp := lookup_of_two_le p2
  have hs := lookup_of_two_le s2
  have le := shuffle_take_length hsh 0 e2
  have ln := shuffle_take_length hsh 1 n2
  have lp := shuffle_take_length hsh 2 p2
  have ls := shuffle_take_length hsh 3 s2
  have hsub : ∀ x ∈ (sh 0 (categoryItems categories "essay")).take 2
      ++ (sh 1 (categoryItems categories "novel")).take 2
      ++ (sh 2 (categoryItems categories "poem")).take 2
      ++ (sh 3 (categoryItems categories "story")).take 2, x ∈ allSamples categories := by
    intro x hx
    simp only [List.mem_append] at hx
    rcases hx with ((h | h) | h) | h
    · exact mem_allSamples he (mem_of_mem_shuffle_take hsh h)
    · exact mem_allSamples hn (mem_of_mem_shuffle_take hsh h)
    · exact mem_allSamples hp (mem_of_mem_shuffle_take hsh h)
    · exact mem_allSamples hs (mem_of_mem_shuffle_take hsh h)
  have hrem := allRemaining_length hd _ hsub (picks_rows_nodup hsh hd he hn hp hs)
  have l8 : ((sh 0 (categoryItems categories "essay")).take 2
      ++ (sh 1 (categoryItems categories "novel")).take 2
      ++ (sh 2 (categoryItems categories "poem")).take 2
      ++ (sh 3 (categoryItems categories "story")).take 2).length = 8 := by
    simp only [List.length_append, le, ln, lp, ls]
  rw [l8] at hrem
  have hq := selectSamples_stratified hsh hd he hn hp hs e2 n2 p2 s2
  have lw : ((sh 4 (allRemaining categories
      (((sh 0 (categoryItems categories "essay")).take 2
        ++ (sh 1 (categoryItems categories "novel")).take 2
        ++ (sh 2 (categoryItems categories "poem")).take 2
        ++ (sh 3 (categoryItems categories "story")).take 2).map
          (fun s => s.rowNum)))).take 2).length = min 2 (poolSize categories - 8) := by
    rw [List.length_take, (hsh 4 _).length_eq, hrem]
  have hlen : (selectSamples sh categories).length = 8 + min 2 (poolSize categories - 8) := by
    rw [hq, List.length_append, l8, lw]
  refine ⟨_, _, _, _, _, hq, le, ln, lp, ls,
    fun x hx => mem_of_mem_shuffle_take hsh hx, fun x hx => mem_of_mem_shuffle_take hsh hx,
    fun x hx => mem_of_mem_shuffle_take hsh hx, fun x hx => mem_of_mem_shuffle_take hsh hx,
    lw, ?_, ?_, hlen, ?_⟩
  · intro x hx
    exact (allSamples_perm categories).mem_iff.1
      (mem_allRemaining (mem_of_mem_shuffle_take hsh hx)).1
  · intro x hx y hy hxy
    have hx' := (mem_allRemaining (mem_of_mem_shuffle_take hsh hx)).2
    exact hx' (hxy ▸ List.mem_map_of_mem (fun s => s.rowNum) hy)
  · intro h10
    rw [hlen]
    omega

theorem stratified_size_and_composition_witness :
    ∃ e n p s w : List Sample,
      selectSamples reverseOrder elevenPool = e ++ n ++ p ++ s ++ w
      ∧ e.length = 2 ∧ n.length = 2 ∧ p.length = 2 ∧ s.length = 2
      ∧ (∀ x ∈ e, x ∈ categoryItems elevenPool "essay")
      ∧ (∀ x ∈ n, x ∈ categoryItems elevenPool "novel")
      ∧ (∀ x ∈ p, x ∈ categoryItems elevenPool "poem")
      ∧ (∀ x ∈ s, x ∈ categoryItems elevenPool "story")
      ∧ w.length = min 2 (poolSize elevenPool - 8)
      ∧ (∀ x ∈ w, x ∈ elevenPool.flatMap (fun entry => entry.2))
      ∧ (∀ x ∈ w, ∀ y ∈ e ++ n ++ p ++ s, x.rowNum ≠ y.rowNum)
      ∧ (selectSamples reverseOrder elevenPool).length = 8 + min 2 (poolSize elevenPool - 8)
      ∧ (10 ≤ poolSize elevenPool → (selectSamples reverseOrder elevenPool).length = 10) :=
  stratified_size_and_composition reverseOrder elevenPool isShuffle_reverseOrder
    (by unfold DistinctRows; decide) (by decide)

/-- C2: when every expected category holds at least 2 items and row numbers are
distinct, the quiz is `e ++ n ++ p ++ s ++ w` where `e`, `n`, `p`, `s` are the first two
items of the shuffled essay, novel, poem and story arrays (two items each, all taken from
the category's own array), so the first 8 items are these picks in this order, and the
wildcard picks `w` follow them and repeat none of their row numbers. -/
theorem stratified_order_and_quota (sh : Shuffle) (categories : Categories)
    (hsh : IsShuffle sh) (hd : DistinctRows categories)
    (h2 : ∀ c ∈ expectedCategories, 2 ≤ (categoryItems categories c).length) :
    ∃ e n p s w : List Sample,
      selectSamples sh categories = e ++ n ++ p ++ s ++ w
      ∧ (selectSamples sh categories).take 8 = e ++ n ++ p ++ s
      ∧ (selectSamples sh categories).drop 8 = w
      ∧ e = (sh 0 (categoryItems categories "essay")).take 2
      ∧ n = (sh 1 (categoryItems categories "novel")).take 2
      ∧ p = (sh 2 (categoryItems categories "poem")).take 2
      ∧ s = (sh 3 (categoryItems categories "story")).take 2
      ∧ e.length = 2 ∧ n.length = 2 ∧ p.length = 2 ∧ s.length = 2
      ∧ (∀ x ∈ e, x ∈ categoryItems categories "essay")
      ∧ (∀ x ∈ n, x ∈ categoryItems categories "novel")
      ∧ (∀ x ∈ p, x ∈ categoryItems categories "poem")
      ∧ (∀ x ∈ s, x ∈ categoryItems categories "story")
      ∧ (∀ x ∈ w, ∀ y ∈ e ++ n ++ p ++ s, x.rowNum ≠ y.rowNum) := by
  have e2 := h2 "essay" (by decide)
  have n2 := h2 "novel" (by decide)
  have p2 := h2 "poem" (by decide)
  have s2 := h2 "story" (by decide)
  have he := lookup_of_two_le e2
  have hn := lookup_of_two_le n2
  have hp := lookup_of_two_le p2
  have hs := lookup_of_two_le s2
  have hq := selectSamples_stratified hsh hd he hn hp hs e2 n2 p2 s2
  have le := shuffle_take_length hsh 0 e2
  have ln := shuffle_take_length hsh 1 n2
  have lp := shuffle_take_length hsh 2 p2
  have ls := shuffle_take_length hsh 3 s2
  have l8 : ((sh 0 (categoryItems categories "essay")).take 2
      ++ (sh 1 (categoryItems categories "novel")).take 2
      ++ (sh 2 (categoryItems categories "poem")).take 2
      ++ (sh 3 (categoryItems categories "story")).take 2).length = 8 := by
    simp only [List.length_append, le, ln, lp, ls]
  refine ⟨_, _, _, _, _, hq, ?_, ?_, rfl, rfl, rfl, rfl, le, ln, lp, ls,
    fun x hx => mem_of_mem_shuffle_take hsh hx, fun x hx => mem_of_mem_shuffle_take hsh hx,
    fun x hx => mem_of_mem_shuffle_take hsh hx, fun x hx => mem_of_mem_shuffle_take hsh hx, ?_⟩
  · rw [hq, List.take_left' l8]
  · rw [hq, List.drop_left' l8]
  · intro x hx y hy hxy
    have hx' := (mem_allRemaining (mem_of_mem_shuffle_take hsh hx)).2
    exact hx' (hxy ▸ List.mem_map_of_mem (fun s => s.rowNum) hy)

theorem stratified_order_and_quota_witness :
    ∃ e n p s w : List Sample,
      selectSamples reverseOrder elevenPool = e ++ n ++ p ++ s ++ w
      ∧ (selectSamples reverseOrder elevenPool).take 8 = e ++ n ++ p ++ s
      ∧ (selectSamples reverseOrder elevenPool).drop 8 = w
      ∧ e = (reverseOrder 0 (categoryItems elevenPool "essay")).take 2
      ∧ n = (reverseOrder 1 (categoryItems elevenPool "novel")).take 2
      ∧ p = (reverseOrder 2 (categoryItems elevenPool "poem")).take 2
      ∧ s = (reverseOrder 3 (categoryItems elevenPool "story")).take 2
      ∧ e.length = 2 ∧ n.length = 2 ∧ p.length = 2 ∧ s.length = 2
      ∧ (∀ x ∈ e, x ∈ categoryItems elevenPool "essay")
      ∧ (∀ x ∈ n, x ∈ categoryItems elevenPool "novel")
      ∧ (∀ x ∈ p, x ∈ categoryItems elevenPool "poem")
      ∧ (∀ x ∈ s, x ∈ categoryItems elevenPool "story")
      ∧ (∀ x ∈ w, ∀ y ∈ e ++ n ++ p ++ s, x.rowNum ≠ y.rowNum) :=
  stratified_order_and_quota reverseOrder elevenPool isShuffle_reverseOrder
    (by unfold DistinctRows; decide) (by decide)

/-- C3: for every parsed dataset and every outcome of the shuffles, the samples set by
the load have pairwise distinct row numbers, on the stratified path and on the fallback
path alike; the callback does set them unless a category is named like a member of
`Object.prototype`. -/
theorem quiz_rows_distinct (sh : Shuffle) (data : List Row) (hsh : IsShuffle sh) :
    ((samplesAfterLoad sh data).map (fun s => s.rowNum)).Nodup
      ∧ (∀ quiz, parseComplete sh data = some quiz → (quiz.map (fun s => s.rowNum)).Nodup)
      ∧ ((∀ r ∈ data, ∀ c, r.category = some c → c ∉ objectPrototypeKeys) →
          (parseComplete sh data).isSome) := by
  have hq : ∀ quiz, parseComplete sh data = some quiz →
      (quiz.map (fun s => s.rowNum)).Nodup := by
    intro quiz h
    unfold parseComplete at h
    cases hl : loadCategories data with
    | none => rw [hl] at h; simp at h
    | some categories =>
      rw [hl] at h
      simp only [Option.map_some', Option.some.injEq] at h
      exact h ▸ selectSamples_rows_nodup hsh (loadCategories_distinct hl)
  refine ⟨?_, hq, ?_⟩
  · unfold samplesAfterLoad
    cases hp : parseComplete sh data with
    | none => simp
    | some quiz => exact hq quiz hp
  · intro hk
    have := groupRows_isSome data hk 0 []
    unfold parseComplete loadCategories
    simpa using this

theorem quiz_rows_distinct_witness :
    ((samplesAfterLoad reverseOrder elevenRows).map (fun s => s.rowNum)).Nodup
      ∧ (∀ quiz, parseComplete reverseOrder elevenRows = some quiz →
          (quiz.map (fun s => s.rowNum)).Nodup)
      ∧ ((∀ r ∈ elevenRows, ∀ c, r.category = some c → c ∉ objectPrototypeKeys) →
          (parseComplete reverseOrder elevenRows).isSome) :=
  quiz_rows_distinct reverseOrder elevenRows isShuffle_reverseOrder

/-- C4: when an expected category is absent or holds fewer than 2 items, the quiz is
the first 10 items of the shuffled flattened pool: the shuffled array is a permutation
of the pool, the quiz has `min 10 poolSize` items and each of them is an item of the
pool. -/
theorem fallback_quiz (sh : Shuffle) (categories : Categories) (hsh : IsShuffle sh)
    (h : ∃ c ∈ expectedCategories,
      categories.lookup c = none ∨ (categoryItems categories c).length < 2) :
    selectSamples sh categories = (sh 0 (allSamples categories)).take 10
      ∧ (sh 0 (allSamples categories)).Perm (categories.flatMap (fun e => e.2))
      ∧ (selectSamples sh categories).length = min 10 (poolSize categories)
      ∧ (∀ x ∈ selectSamples sh categories, x ∈ categories.flatMap (fun e => e.2)) := by
  have hperm := (hsh 0 (allSamples categories)).trans (allSamples_perm categories)
  have hins : (categoriesWithInsufficientSamples categories).length > 0 := by
    obtain ⟨c, hc, hlt⟩ := h
    have hmem : c ∈ categoriesWithInsufficientSamples categories := by
      refine List.mem_filter.2 ⟨hc, ?_⟩
      unfold insufficient
      rcases hlt with h0 | h0
      · rw [h0]
      · unfold categoryItems at h0
        cases hl : categories.lookup c with
        | none => rfl
        | some l => rw [hl] at h0; simpa using h0
    exact List.length_pos_of_mem hmem
  have heq : selectSamples sh categories = (sh 0 (allSamples categories)).take 10 := by
    unfold selectSamples
    rw [if_pos hins]
  refine ⟨heq, hperm, ?_, ?_⟩
  · rw [heq, List.length_take, hperm.length_eq, poolSize]
  · intro x hx
    rw [heq] at hx
    exact hperm.mem_iff.1 (List.mem_of_mem_take hx)

theorem fallback_quiz_witness :
    selectSamples reverseOrder fivePool = (reverseOrder 0 (allSamples fivePool)).take 10
      ∧ (reverseOrder 0 (allSamples fivePool)).Perm (fivePool.flatMap (fun e => e.2))
      ∧ (selectSamples reverseOrder fivePool).length = min 10 (poolSize fivePool)
      ∧ (∀ x ∈ selectSamples reverseOrder fivePool, x ∈ fivePool.flatMap (fun e => e.2)) :=
  fallback_quiz reverseOrder fivePool isShuffle_reverseOrder
    ⟨"story", by decide, Or.inl (by decide)⟩

end SurveyFrontend

namespace SurveyBackend

/-! ## Strings -/

theorem joinWith_cons_cons (sep a b : String) (rest : List String) :
    joinWith sep (a :: b :: rest) = a ++ sep ++ joinWith sep (b :: rest) := rfl

theorem replaceQuotes_eq_flatMap (v : List Char) :
    replaceQuotes v = v.flatMap (fun c => if c = dquote then [dquote, dquote] else [c]) := by
  induction v with
  | nil => rfl
  | cons c cs ih =>
    by_cases hc : c = dquote
    · simp [replaceQuotes, hc, ih]
    · simp [replaceQuotes, hc, ih]

/-! ## Initialization -/

theorem initializeFiles_existing (files : FileSystem) (path : Path) (content : String)
    (h : files.content path = some content) :
    (initializeFiles files).content path = some content := by
  obtain ⟨r, m⟩ := files
  cases path <;> cases r <;> cases m <;>
    simp_all [initializeFiles, FileSystem.content, FileSystem.existsSync,
      FileSystem.writeFileSync]

/-- C9: `initializeFiles` leaves an existing ledger file exactly as it is, creates a
missing one holding the fixed header line and a line feed, and a second call changes
nothing; two calls on missing ledgers leave each header exactly once. -/
theorem initializeFiles_idempotent (files : FileSystem) :
    (∀ path content, files.content path = some content →
        (initializeFiles files).content path = some content)
      ∧ (files.content resultFile = none → (initializeFiles files).content resultFile
          = some "ID,Sample Number,Predicted Label,Actual Label\n")
      ∧ (files.content marksFile = none → (initializeFiles files).content marksFile
          = some "StudentID,Marks\n")
      ∧ initializeFiles (initializeFiles files) = initializeFiles files
      ∧ initializeFiles (initializeFiles ⟨none, none⟩)
          = ⟨some (headerString resultFile ++ "\n"), some (headerString marksFile ++ "\n")⟩
      ∧ headerString resultFile = "ID,Sample Number,Predicted Label,Actual Label"
      ∧ headerString marksFile = "StudentID,Marks" := by
  obtain ⟨r, m⟩ := files
  refine ⟨?_, ?_, ?_, ?_, by decide, by decide, by decide⟩
  · intro path content h
    cases path <;> cases r <;> cases m <;>
      simp_all [initializeFiles, FileSystem.content, FileSystem.existsSync,
        FileSystem.writeFileSync]
  · intro h
    cases r <;> cases m <;>
      simp_all [initializeFiles, FileSystem.content, FileSystem.existsSync,
        FileSystem.writeFileSync]
  · intro h
    cases r <;> cases m <;>
      simp_all [initializeFiles, FileSystem.content, FileSystem.existsSync,
        FileSystem.writeFileSync]
  · cases r <;> cases m <;>
      simp [initializeFiles, FileSystem.content, FileSystem.existsSync,
        FileSystem.writeFileSync]

/-! ## Quoting of the detail ledger -/

theorem readRecord_quoted_dquote (done : List String) (cur cs : List Char) :
    readRecord .quoted done cur (dquote :: cs) = readRecord .quoteSeen done cur cs := by
  rw [readRecord, if_pos rfl]

theorem readRecord_quoted_other (done : List String) (cur cs : List Char) (c : Char)
    (hc : c ≠ dquote) :
    readRecord .quoted done cur (c :: cs) = readRecord .quoted done (cur ++ [c]) cs := by
  rw [readRecord, if_neg hc]

theorem readRecord_quoteSeen_dquote (done : List String) (cur cs : List Char) :
    readRecord .quoteSeen done cur (dquote :: cs)
      = readRecord .quoted done (cur ++ [dquote]) cs := by
  rw [readRecord, if_pos rfl]

theorem readRecord_quoteSeen_comma (done : List String) (cur cs : List Char) :
    readRecord .quoteSeen done cur (',' :: cs)
      = readRecord .fieldStart (done ++ [String.mk cur]) [] cs := by
  rw [readRecord, if_neg (by decide), if_pos rfl]

theorem readRecord_quoteSeen_newline (done : List String) (cur cs : List Char) :
    readRecord .quoteSeen done cur (newline :: cs) = some (done ++ [String.mk cur], cs) := by
  rw [readRecord, if_neg (by decide), if_neg (by decide), if_pos rfl]

theorem readRecord_fieldStart_dquote (done : List String) (cur cs : List Char) :
    readRecord .fieldStart done cur (dquote :: cs) = readRecord .quoted done [] cs := by
  rw [readRecord, if_pos rfl]

theorem readRecord_quoted_value (v : List Char) :
    ∀ (done : List String) (cur rest : List Char),
      readRecord .quoted done cur (replaceQuotes v ++ dquote :: rest)
        = readRecord .quoteSeen done (cur ++ v) rest := by
  induction v with
  | nil =>
    intro done cur rest
    rw [replaceQuotes, List.nil_append, readRecord_quoted_dquote, List.append_nil]
  | cons c cs ih =>
    intro done cur rest
    by_cases hc : c = dquote
    · subst hc
      rw [replaceQuotes, if_pos rfl, List.cons_append, List.cons_append,
        readRecord_quoted_dquote, readRecord_quoteSeen_dquote, ih, List.append_assoc,
        List.singleton_append]
    · rw [replaceQuotes, if_neg hc, List.cons_append, readRecord_quoted_other _ _ _ _ hc, ih,
        List.append_assoc, List.singleton_append]

theorem quotedField_data (v : String) :
    (quotedField v).data = dquote :: (replaceQuotes v.data ++ [dquote]) := by
  simp [quotedField, replaceQuotes_eq_flatMap]

theorem readRecord_quotedField (v : String) (done : List String) (rest : List Char) :
    readRecord .fieldStart done [] ((quotedField v).data ++ rest)
      = readRecord .quoteSeen done v.data rest := by
  rw [quotedField_data, List.cons_append, List.append_assoc, List.singleton_append,
    readRecord_fieldStart_dquote, readRecord_quoted_value, List.nil_append]

/-- Reading back a line made of quoted fields joined by commas gives the values, whether
the line ends the input (`tail = none`) or is followed by a line feed and more text. -/
theorem readRecord_quoted_line (values : List String) (hne : values ≠ []) :
    ∀ (done : List String) (tail : Option (List Char)),
      readRecord .fieldStart done []
          ((joinWith "," (values.map quotedField)).data
            ++ (match tail with
                | none => []
                | some rest => newline :: rest))
        = some (done ++ values, tail.getD []) := by
  induction values with
  | nil => exact absurd rfl hne
  | cons v vs ih =>
    intro done tail
    have hv : String.mk v.data = v := rfl
    cases vs with
    | nil =>
      simp only [List.map_cons, List.map_nil, joinWith]
      rw [readRecord_quotedField]
      cases tail with
      | none => simp [readRecord]
      | some rest => simp [readRecord_quoteSeen_newline]
    | cons w ws =>
      have ih' := ih (by simp) (done ++ [v]) tail
      have hd : (",".data : List Char) = [','] := rfl
      rw [List.map_cons, List.map_cons, joinWith_cons_cons, String.data_append,
        String.data_append, List.append_assoc, List.append_assoc, readRecord_quotedField,
        hd, List.singleton_append, readRecord_quoteSeen_comma, hv, ← List.map_cons, ih']
      simp

theorem jsToString_fieldValue_string (record : Record) (header : Header) (v : String)
    (h : record.lookup header.id = some (.string v)) :
    jsToString (fieldValue record header) = some v := by
  unfold fieldValue
  simp only [h, Option.getD_some]
  by_cases hv : v = ""
  · simp [truthy, hv, jsToString]
  · simp [truthy, hv, jsToString]

/-- C10: a detail row of four string values is rendered as the four quoted fields (a
double quote, the value with every double quote doubled, a closing double quote) joined
by commas, `appendToCsv` appends exactly that text after its separator, and reading the
text back with standard doubled-quote unquoting returns the four original values, also
when further lines follow it in the file. -/
theorem detail_row_round_trip (id sampleNumber predictedLabel actualLabel : String) :
    csvString resultFile
        [[("id", .string id), ("sampleNumber", .string sampleNumber),
          ("predictedLabel", .string predictedLabel), ("actualLabel", .string actualLabel)]]
        resultHeaders
      = some (quotedField id ++ "," ++ quotedField sampleNumber ++ ","
          ++ quotedField predictedLabel ++ "," ++ quotedField actualLabel)
    ∧ (∀ files : FileSystem, ∃ separator, (separator = "" ∨ separator = "\n")
        ∧ appendToCsv files resultFile
            [[("id", .string id), ("sampleNumber", .string sampleNumber),
              ("predictedLabel", .string predictedLabel), ("actualLabel", .string actualLabel)]]
            resultHeaders
          = some (files.appendFileSync resultFile
              (separator ++ (quotedField id ++ "," ++ quotedField sampleNumber ++ ","
                ++ quotedField predictedLabel ++ "," ++ quotedField actualLabel))))
    ∧ readCsvRecord (quotedField id ++ "," ++ quotedField sampleNumber ++ ","
          ++ quotedField predictedLabel ++ "," ++ quotedField actualLabel)
        = some ([id, sampleNumber, predictedLabel, actualLabel], [])
    ∧ (∀ rest : List Char,
        readRecord .fieldStart [] []
            ((quotedField id ++ "," ++ quotedField sampleNumber ++ ","
              ++ quotedField predictedLabel ++ "," ++ quotedField actualLabel).data
              ++ newline :: rest)
          = some ([id, sampleNumber, predictedLabel, actualLabel], rest)) := by
  have hline : joinWith "," ([id, sampleNumber, predictedLabel, actualLabel].map quotedField)
      = quotedField id ++ "," ++ quotedField sampleNumber ++ ","
          ++ quotedField predictedLabel ++ "," ++ quotedField actualLabel := by
    simp [joinWith, String.append_assoc]
  have hq : ∀ v : String,
      String.mk ([dquote] ++ replaceQuotes v.data ++ [dquote]) = quotedField v := by
    intro v
    simp [quotedField, replaceQuotes_eq_flatMap]
  have hcsv : csvString resultFile
        [[("id", .string id), ("sampleNumber", .string sampleNumber),
          ("predictedLabel", .string predictedLabel), ("actualLabel", .string actualLabel)]]
        resultHeaders
      = some (quotedField id ++ "," ++ quotedField sampleNumber ++ ","
          ++ quotedField predictedLabel ++ "," ++ quotedField actualLabel) := by
    have h1 := jsToString_fieldValue_string
      [("id", .string id), ("sampleNumber", .string sampleNumber),
       ("predictedLabel", .string predictedLabel), ("actualLabel", .string actualLabel)]
      ⟨"id", "ID"⟩ id (by simp [List.lookup])
    have h2 := jsToString_fieldValue_string
      [("id", .string id), ("sampleNumber", .string sampleNumber),
       ("predictedLabel", .string predictedLabel), ("actualLabel", .string actualLabel)]
      ⟨"sampleNumber", "Sample Number"⟩ sampleNumber (by simp [List.lookup])
    have h3 := jsToString_fieldValue_string
      [("id", .string id), ("sampleNumber", .string sampleNumber),
       ("predictedLabel", .string predictedLabel), ("actualLabel", .string actualLabel)]
      ⟨"predictedLabel", "Predicted Label"⟩ predictedLabel (by simp [List.lookup])
    have h4 := jsToString_fieldValue_string
      [("id", .string id), ("sampleNumber", .string sampleNumber),
       ("predictedLabel", .string predictedLabel), ("actualLabel", .string actualLabel)]
      ⟨"actualLabel", "Actual Label"⟩ actualLabel (by simp [List.lookup])
    have hp : (resultFile = marksFile) = False := by simp
    simp only [csvString, renderRecords, renderRecord, resultHeaders, renderFields,
      renderField, h1, h2, h3, h4, hp, if_false, hq, Option.map_some', joinWith,
      String.append_assoc]
  refine ⟨hcsv, ?_, ?_, ?_⟩
  · intro files
    unfold appendToCsv
    simp only [hcsv]
    refine ⟨_, ?_, rfl⟩
    split
    · exact Or.inr rfl
    · exact Or.inl rfl
  · have h := readRecord_quoted_line [id, sampleNumber, predictedLabel, actualLabel]
      (by simp) [] none
    rw [hline] at h
    simpa [readCsvRecord] using h
  · intro rest
    have h := readRecord_quoted_line [id, sampleNumber, predictedLabel, actualLabel]
      (by simp) [] (some rest)
    rw [hline] at h
    simpa using h

/-! ## The submit handler -/

theorem jsToString_fieldValue_number (record : Record) (header : Header) (n : Int)
    (h : record.lookup header.id = some (.number n)) :
    jsToString (fieldValue record header) = some (if n = 0 then "" else toString n) := by
  unfold fieldValue
  simp only [h, Option.getD_some]
  by_cases hn : n = 0
  · simp [truthy, hn, jsToString]
  · simp [truthy, hn, jsToString]

/-- The text of the score row written for a respondent with a string id. -/
theorem renderRecord_marks (studentId : String) (correctCount : Nat) :
    renderRecord marksFile marksHeaders
        [("studentID", .string studentId), ("marks", .number (Int.ofNat correctCount))]
      = some (studentId ++ ","
          ++ (if correctCount = 0 then "" else toString (Int.ofNat correctCount))) := by
  have h1 := jsToString_fieldValue_string
    [("studentID", .string studentId), ("marks", .number (Int.ofNat correctCount))]
    ⟨"studentID", "StudentID"⟩ studentId (by simp [List.lookup])
  have h2 := jsToString_fieldValue_number
    [("studentID", .string studentId), ("marks", .number (Int.ofNat correctCount))]
    ⟨"marks", "Marks"⟩ (Int.ofNat correctCount) (by simp [List.lookup])
  have h0 : (Int.ofNat correctCount = 0) = (correctCount = 0) := by
    simp
  simp only [renderRecord, marksHeaders, renderFields, renderField, h1, h2, if_true,
    Option.map_some', joinWith, h0]

theorem jsToString_fieldValue_isSome (record : Record) (header : Header) (v : JSValue)
    (h : record.lookup header.id = some v)
    (hv : truthy v = true → (jsToString v).isSome = true) :
    (jsToString (fieldValue record header)).isSome = true := by
  unfold fieldValue
  simp only [h, Option.getD_some]
  by_cases ht : truthy v = true
  · rw [if_pos ht]; exact hv ht
  · rw [if_neg ht]; rfl

/-- The record that the scoring loop builds for a response (lines 97-102). -/
theorem scoreResponses_labelled (toLowerCase : String → String) (studentId : JSValue) :
    ∀ (responses : List JSValue) (labels : List (String × String)),
      List.Forall₂ (fun r l => getProp r "predicted" = some (.string l.1)
        ∧ getProp r "actual" = some (.string l.2)) responses labels →
      ∀ correctCount : Nat,
        scoreResponses toLowerCase studentId responses correctCount
          = some (responses.map (fun r =>
              [("id", studentId),
               ("sampleNumber", (getProp r "rowNum").getD .undefined),
               ("predictedLabel", (getProp r "predicted").getD .undefined),
               ("actualLabel", (getProp r "actual").getD .undefined)]),
            correctCount
              + (labels.filter (fun l => toLowerCase l.1 == toLowerCase l.2)).length) := by
  intro responses labels h
  induction h with
  | nil => intro c; simp [scoreResponses]
  | @cons r l rs ls hrl _ ih =>
    intro c
    obtain ⟨hp, ha⟩ := hrl
    by_cases hc : toLowerCase l.1 = toLowerCase l.2
    · have hb : (toLowerCase l.1 == toLowerCase l.2) = true := by simpa using hc
      simp only [scoreResponses, isCorrect, hp, ha, asString, hb, if_true, ih (c + 1),
        List.map_cons, List.filter_cons, List.length_cons]
      simp only [Nat.add_assoc, Nat.add_comm 1]
    · have hb : (toLowerCase l.1 == toLowerCase l.2) = false := by simpa using hc
      simp only [scoreResponses, isCorrect, hp, ha, asString, hb, Bool.false_eq_true,
        if_false, ih c, List.map_cons, List.filter_cons]

theorem labels_of_forall₂ (responses : List JSValue) (labels : List (String × String))
    (h : List.Forall₂ (fun r l => getProp r "predicted" = some (.string l.1)
      ∧ getProp r "actual" = some (.string l.2)) responses labels) :
    ∀ r ∈ responses, ∃ p a, getProp r "predicted" = some (.string p)
      ∧ getProp r "actual" = some (.string a) := by
  induction h with
  | nil => intro r hr; simp at hr
  | @cons r l rs ls hrl _ ih =>
    intro x hx
    rcases List.mem_cons.1 hx with h' | h'
    · exact h' ▸ ⟨l.1, l.2, hrl⟩
    · exact ih x h'

/-- The detail records are rendered when the student id and every truthy row number
have a string form. -/
theorem renderRecords_responses (studentId : JSValue)
    (hid : (jsToString studentId).isSome = true) :
    ∀ (responses : List JSValue),
      (∀ r ∈ responses, ∃ p a, getProp r "predicted" = some (.string p)
        ∧ getProp r "actual" = some (.string a)) →
      (∀ r ∈ responses, ∀ v, getProp r "rowNum" = some v → truthy v = true →
        (jsToString v).isSome = true) →
      ∃ lines, renderRecords resultFile resultHeaders
          (responses.map (fun r =>
            [("id", studentId),
             ("sampleNumber", (getProp r "rowNum").getD .undefined),
             ("predictedLabel", (getProp r "predicted").getD .undefined),
             ("actualLabel", (getProp r "actual").getD .undefined)]))
        = some lines := by
  intro responses
  induction responses with
  | nil => intro _ _; exact ⟨[], rfl⟩
  | cons r rest ih =>
    intro hlab hrow
    obtain ⟨lines, hl⟩ := ih (fun x hx => hlab x (List.mem_cons_of_mem _ hx))
      (fun x hx => hrow x (List.mem_cons_of_mem _ hx))
    obtain ⟨p, a, hp, ha⟩ := hlab r (List.mem_cons_self _ _)
    have hrow' : truthy ((getProp r "rowNum").getD .undefined) = true →
        (jsToString ((getProp r "rowNum").getD .undefined)).isSome = true := by
      cases hg : getProp r "rowNum" with
      | none => intro ht; simp [truthy] at ht
      | some v => exact hrow r (List.mem_cons_self _ _) v hg
    have h1 := jsToString_fieldValue_isSome
      [("id", studentId), ("sampleNumber", (getProp r "rowNum").getD .undefined),
       ("predictedLabel", (getProp r "predicted").getD .undefined),
       ("actualLabel", (getProp r "actual").getD .undefined)]
      ⟨"id", "ID"⟩ studentId (by simp [List.lookup]) (fun _ => hid)
    have h2 := jsToString_fieldValue_isSome
      [("id", studentId), ("sampleNumber", (getProp r "rowNum").getD .undefined),
       ("predictedLabel", (getProp r "predicted").getD .undefined),
       ("actualLabel", (getProp r "actual").getD .undefined)]
      ⟨"sampleNumber", "Sample Number"⟩ _ (by simp [List.lookup]) hrow'
    have h3 := jsToString_fieldValue_isSome
      [("id", studentId), ("sampleNumber", (getProp r "rowNum").getD .undefined),
       ("predictedLabel", (getProp r "predicted").getD .undefined),
       ("actualLabel", (getProp r "actual").getD .undefined)]
      ⟨"predictedLabel", "Predicted Label"⟩ (.string p) (by simp [List.lookup, hp])
      (fun _ => rfl)
    have h4 := jsToString_fieldValue_isSome
      [("id", studentId), ("sampleNumber", (getProp r "rowNum").getD .undefined),
       ("predictedLabel", (getProp r "predicted").getD .undefined),
       ("actualLabel", (getProp r "actual").getD .undefined)]
      ⟨"actualLabel", "Actual Label"⟩ (.string a) (by simp [List.lookup, ha])
      (fun _ => rfl)
    obtain ⟨f1, hf1⟩ := Option.isSome_iff_exists.1 h1
    obtain ⟨f2, hf2⟩ := Option.isSome_iff_exists.1 h2
    obtain ⟨f3, hf3⟩ := Option.isSome_iff_exists.1 h3
    obtain ⟨f4, hf4⟩ := Option.isSome_iff_exists.1 h4
    have hp' : (resultFile = marksFile) = False := by simp
    refine ⟨joinWith ","
      [String.mk ([dquote] ++ replaceQuotes f1.data ++ [dquote]),
       String.mk ([dquote] ++ replaceQuotes f2.data ++ [dquote]),
       String.mk ([dquote] ++ replaceQuotes f3.data ++ [dquote]),
       String.mk ([dquote] ++ replaceQuotes f4.data ++ [dquote])] :: lines, ?_⟩
    rw [List.map_cons, renderRecords, hl]
    simp only [renderRecord, resultHeaders, renderFields, renderField, hf1, hf2, hf3, hf4,
      hp', if_false, Option.map_some']

/-- The score record is rendered when the student id has a string form. -/
theorem renderRecords_marksRecord (studentId : JSValue) (correctCount : Nat)
    (hid : (jsToString studentId).isSome = true) :
    ∃ lines, renderRecords marksFile marksHeaders
        [[("studentID", studentId), ("marks", .number (Int.ofNat correctCount))]]
      = some lines := by
  have h1 := jsToString_fieldValue_isSome
    [("studentID", studentId), ("marks", .number (Int.ofNat correctCount))]
    ⟨"studentID", "StudentID"⟩ studentId (by simp [List.lookup]) (fun _ => hid)
  have h2 := jsToString_fieldValue_isSome
    [("studentID", studentId), ("marks", .number (Int.ofNat correctCount))]
    ⟨"marks", "Marks"⟩ (.number (Int.ofNat correctCount)) (by simp [List.lookup])
    (fun _ => rfl)
  obtain ⟨f1, hf1⟩ := Option.isSome_iff_exists.1 h1
  obtain ⟨f2, hf2⟩ := Option.isSome_iff_exists.1 h2
  refine ⟨[joinWith "," [f1, f2]], ?_⟩
  simp only [renderRecords, renderRecord, marksHeaders, renderFields, renderField, hf1, hf2,
    if_true, Option.map_some']

/-- C5 (as stated, refuted): a submission with a non-empty student id and one response
whose predicted and actual labels are strings that match after lower-casing, but whose
`rowNum` is an object with an own `toString` property, is answered 500 and no marks are
returned: rendering the detail row raises a `TypeError`, caught by the handler. -/
theorem unrenderable_row_number_rejected :
    getProp (.object [("rowNum", .object [("toString", .number 1)]),
        ("predicted", .string "AI"), ("actual", .string "ai")]) "predicted"
      = some (.string "AI")
    ∧ getProp (.object [("rowNum", .object [("toString", .number 1)]),
        ("predicted", .string "AI"), ("actual", .string "ai")]) "actual"
      = some (.string "ai")
    ∧ asciiLower "AI" = asciiLower "ai"
    ∧ submit asciiLower (initializeFiles ⟨none, none⟩)
        (.object [("studentId", .string "s1"),
          ("responses", .array [.object [("rowNum", .object [("toString", .number 1)]),
            ("predicted", .string "AI"), ("actual", .string "ai")]])])
      = (.internalServerError, initializeFiles ⟨none, none⟩) := by
  refine ⟨rfl, rfl, by decide, by decide⟩

/-- C5 (amended): for every request body whose `studentId` is truthy and has a string
form, and whose `responses` is a non-empty array of responses with string `predicted`
and `actual` labels in which every truthy `rowNum` has a string form (as every string,
number and boolean has), the handler answers 200 and the marks it returns are the number
of responses whose predicted label equals the actual label after lower-casing both; the
marks are at most the number of responses. -/
theorem marks_eq_matching_count (toLowerCase : String → String) (files : FileSystem)
    (body studentId : JSValue) (responses : List JSValue) (labels : List (String × String))
    (hs : getProp body "studentId" = some studentId)
    (hr : getProp body "responses" = some (.array responses))
    (hid : truthy studentId = true) (hidText : (jsToString studentId).isSome = true)
    (hne : responses ≠ [])
    (hlabels : List.Forall₂ (fun r l => getProp r "predicted" = some (.string l.1)
      ∧ getProp r "actual" = some (.string l.2)) responses labels)
    (hrow : ∀ r ∈ responses, ∀ v, getProp r "rowNum" = some v → truthy v = true →
      (jsToString v).isSome = true) :
    (submit toLowerCase files body).1
        = .ok (labels.filter (fun l => toLowerCase l.1 == toLowerCase l.2)).length
      ∧ (labels.filter (fun l => toLowerCase l.1 == toLowerCase l.2)).length
          ≤ responses.length := by
  have hlen2 : labels.length = responses.length := hlabels.length_eq.symm
  refine ⟨?_, hlen2 ▸ List.length_filter_le _ _⟩
  have hscore := scoreResponses_labelled toLowerCase studentId responses labels hlabels 0
  have hlab := labels_of_forall₂ responses labels hlabels
  obtain ⟨lines, hlines⟩ := renderRecords_responses studentId hidText responses hlab hrow
  obtain ⟨mlines, hm⟩ := renderRecords_marksRecord studentId
    (labels.filter (fun l => toLowerCase l.1 == toLowerCase l.2)).length hidText
  rw [Nat.zero_add] at hscore
  have hlen : (responses.length == 0) = false := by
    cases responses with
    | nil => exact absurd rfl hne
    | cons a rest => rfl
  have hta : truthy (.array responses) = true := rfl
  simp only [submit, hs, hr, hid, hta, isArray, arrayItems, hlen, hscore, appendToCsv,
    csvString, hlines, hm, Option.map_some', Bool.not_true, Bool.or_self,
    Bool.false_eq_true, if_false, Nat.zero_add]

theorem marks_eq_matching_count_witness :
    (submit asciiLower ⟨none, none⟩
        (.object [("studentId", .number 42),
          ("responses", .array
            [.object [("predicted", .string "AI"), ("actual", .string "ai")],
             .object [("rowNum", .number 7), ("predicted", .string "human"),
               ("actual", .string "ai")]])])).1
        = .ok ([("AI", "ai"), ("human", "ai")].filter
            (fun l => asciiLower l.1 == asciiLower l.2)).length
      ∧ ([("AI", "ai"), ("human", "ai")].filter
            (fun l => asciiLower l.1 == asciiLower l.2)).length
          ≤ [JSValue.object [("predicted", .string "AI"), ("actual", .string "ai")],
             .object [("rowNum", .number 7), ("predicted", .string "human"),
               ("actual", .string "ai")]].length :=
  marks_eq_matching_count asciiLower ⟨none, none⟩ _ (.number 42) _ _ rfl rfl rfl rfl
    (by simp)
    (List.Forall₂.cons ⟨rfl, rfl⟩ (List.Forall₂.cons ⟨rfl, rfl⟩ List.Forall₂.nil))
    (by
      intro r hr v hv _
      simp only [List.mem_cons, List.mem_singleton, List.not_mem_nil, or_false] at hr
      rcases hr with rfl | rfl
      · have : v = .undefined := by
          have h : getProp (.object [("predicted", .string "AI"), ("actual", .string "ai")])
              "rowNum" = some .undefined := rfl
          rw [h] at hv
          exact (Option.some.inj hv).symm
        subst this
        rename_i ht
        exact absurd ht (by simp [truthy])
      · have : v = .number 7 := by
          have h : getProp (.object [("rowNum", .number 7), ("predicted", .string "human"),
              ("actual", .string "ai")]) "rowNum" = some (.number 7) := rfl
          rw [h] at hv
          exact (Option.some.inj hv).symm
        subst this
        rfl)

/-- C6 (the code departs from it): a submission without any correct answer is answered
with marks 0, but the score row appended to `marks.csv` is `s1,` with an empty marks
field, because `record[header.id] || ''` turns the number 0 into the empty string. -/
theorem zero_marks_score_row :
    submit asciiLower (initializeFiles ⟨none, none⟩)
        (submissionData "s1" [⟨1, "ai", "human"⟩])
      = (.ok 0,
          ⟨some "ID,Sample Number,Predicted Label,Actual Label\n\"s1\",\"1\",\"ai\",\"human\"",
           some "StudentID,Marks\ns1,"⟩) := by
  decide

/-- C7 (as stated, refuted): a request with an empty student id and no responses is
answered 400, yet when the ledger files are missing the handler has created both of
them before validating, so the ledgers are not left as they were. -/
theorem rejected_submission_creates_ledgers :
    submit asciiLower ⟨none, none⟩
        (.object [("studentId", .string ""), ("responses", .array [])])
      = (.badRequest,
          ⟨some "ID,Sample Number,Predicted Label,Actual Label\n", some "StudentID,Marks\n"⟩)
    ∧ (submit asciiLower ⟨none, none⟩
        (.object [("studentId", .string ""), ("responses", .array [])])).2
      ≠ ⟨none, none⟩ := by
  decide

/-- C7 (amended): a payload whose `studentId` is missing or empty, or whose `responses`
is missing, not an array or empty, is answered 400 and no row is appended; the files
are those left by `initializeFiles`, so an existing ledger keeps its content and the
ledgers are exactly as before when both already exist. -/
theorem rejected_submission (toLowerCase : String → String) (files : FileSystem)
    (body studentId responses : JSValue)
    (hs : getProp body "studentId" = some studentId)
    (hr : getProp body "responses" = some responses)
    (hbad : studentId = .undefined ∨ studentId = .null ∨ studentId = .string ""
      ∨ responses = .undefined ∨ responses = .null ∨ (∀ items, responses ≠ .array items)
      ∨ responses = .array []) :
    submit toLowerCase files body = (.badRequest, initializeFiles files)
      ∧ (∀ path content, files.content path = some content →
          (submit toLowerCase files body).2.content path = some content)
      ∧ (files.existsSync resultFile = true → files.existsSync marksFile = true →
          (submit toLowerCase files body).2 = files) := by
  have hsub : submit toLowerCase files body = (.badRequest, initializeFiles files) := by
    have hguard : (!truthy studentId || !truthy responses || !isArray responses
        || (arrayItems responses).length == 0) = true := by
      rcases hbad with h | h | h | h | h | h | h
      · simp [h, truthy]
      · simp [h, truthy]
      · simp [h, truthy]
      · simp [h, truthy]
      · simp [h, truthy]
      · have : isArray responses = false := by
          cases responses with
          | array items => exact absurd rfl (h items)
          | _ => rfl
        simp [this]
      · simp [h, arrayItems]
    simp only [submit, hs, hr, hguard, if_true]
  refine ⟨hsub, ?_, ?_⟩
  · intro path content h
    rw [hsub]
    exact (initializeFiles_existing files path content h)
  · intro h1 h2
    rw [hsub]
    obtain ⟨r, m⟩ := files
    cases r <;> cases m <;>
      simp_all [initializeFiles, FileSystem.content, FileSystem.existsSync,
        FileSystem.writeFileSync]

theorem rejected_submission_witness :
    submit asciiLower ⟨some "ID,Sample Number,Predicted Label,Actual Label\n", none⟩
        (.object [("responses", .string "none")])
      = (.badRequest,
          initializeFiles ⟨some "ID,Sample Number,Predicted Label,Actual Label\n", none⟩)
      ∧ (∀ path content,
          (FileSystem.mk (some "ID,Sample Number,Predicted Label,Actual Label\n")
              none).content path = some content →
          (submit asciiLower ⟨some "ID,Sample Number,Predicted Label,Actual Label\n", none⟩
            (.object [("responses", .string "none")])).2.content path = some content)
      ∧ ((FileSystem.mk (some "ID,Sample Number,Predicted Label,Actual Label\n")
              none).existsSync resultFile = true →
          (FileSystem.mk (some "ID,Sample Number,Predicted Label,Actual Label\n")
              none).existsSync marksFile = true →
          (submit asciiLower ⟨some "ID,Sample Number,Predicted Label,Actual Label\n", none⟩
            (.object [("responses", .string "none")])).2
            = ⟨some "ID,Sample Number,Predicted Label,Actual Label\n", none⟩) :=
  rejected_submission asciiLower _ (.object [("responses", .string "none")])
    .undefined (.string "none") rfl rfl (Or.inl rfl)

/-! ## Append integrity -/

theorem joinWith_append (sep : String) :
    ∀ (a b : List String), a ≠ [] → b ≠ [] →
      joinWith sep (a ++ b) = joinWith sep a ++ sep ++ joinWith sep b := by
  intro a
  induction a with
  | nil => intro b ha _; exact absurd rfl ha
  | cons x xs ih =>
    intro b _ hb
    cases xs with
    | nil =>
      cases b with
      | nil => exact absurd rfl hb
      | cons y ys => rfl
    | cons x' xs' =>
      have h : joinWith sep (x' :: (xs' ++ b))
          = joinWith sep (x' :: xs') ++ sep ++ joinWith sep b := ih b (by simp) hb
      show joinWith sep (x :: x' :: (xs' ++ b))
          = joinWith sep (x :: x' :: xs') ++ sep ++ joinWith sep b
      rw [joinWith_cons_cons, joinWith_cons_cons, h]
      simp only [String.append_assoc]

theorem comma_mem_joinWith (a b : String) (rest : List String) :
    ',' ∈ (joinWith "," (a :: b :: rest)).data := by
  have hd : (",".data : List Char) = [','] := rfl
  rw [joinWith_cons_cons, String.data_append, String.data_append, hd]
  simp

theorem renderFields_length (filePath : Path) (record : Record) :
    ∀ (headers : List Header) (fields : List String),
      renderFields filePath record headers = some fields → fields.length = headers.length := by
  intro headers
  induction headers with
  | nil => intro fields h; simp only [renderFields, Option.some.injEq] at h; simp [← h]
  | cons header rest ih =>
    intro fields h
    unfold renderFields at h
    split at h
    · rename_i f fs _ hfs
      simp only [Option.some.injEq] at h
      rw [← h, List.length_cons, List.length_cons, ih fs hfs]
    · exact absurd h (by simp)

/-- Every line rendered for one of the two ledgers holds a comma. -/
theorem renderRecord_comma (filePath : Path) (record : Record) (line : String)
    (h : renderRecord filePath (headersOf filePath) record = some line) :
    ',' ∈ line.data := by
  unfold renderRecord at h
  cases hf : renderFields filePath record (headersOf filePath) with
  | none => rw [hf] at h; simp at h
  | some fields =>
    rw [hf] at h
    simp only [Option.map_some', Option.some.injEq] at h
    have hlen := renderFields_length filePath record _ fields hf
    have h2 : 2 ≤ fields.length := by
      rw [hlen]
      cases filePath <;> simp [headersOf, resultHeaders, marksHeaders]
    match fields, h2 with
    | a :: b :: rest, _ => exact h ▸ comma_mem_joinWith a b rest

theorem renderRecords_spec (filePath : Path) :
    ∀ (records : List Record) (lines : List String),
      renderRecords filePath (headersOf filePath) records = some lines →
      lines.length = records.length ∧ ∀ line ∈ lines, ',' ∈ line.data := by
  intro records
  induction records with
  | nil =>
    intro lines h
    simp only [renderRecords, Option.some.injEq] at h
    simp [← h]
  | cons record rest ih =>
    intro lines h
    unfold renderRecords at h
    split at h
    · rename_i line lines' hline hlines
      simp only [Option.some.injEq] at h
      obtain ⟨hl, hc⟩ := ih lines' hlines
      subst h
      refine ⟨by simp [hl], ?_⟩
      intro l hl'
      rcases List.mem_cons.1 hl' with h' | h'
      · exact h' ▸ renderRecord_comma filePath record line hline
      · exact hc l h'
    · exact absurd h (by simp)

theorem length_dropWhile_append (p : Char → Bool) (c : Char) (hp : p c = false)
    (r : List Char) :
    ∀ l : List Char, c ∈ l → r.length < ((l ++ r).dropWhile p).length := by
  intro l
  induction l with
  | nil => intro h; simp at h
  | cons a l ih =>
    intro h
    by_cases ha : p a = true
    · rw [List.cons_append, List.dropWhile_cons_of_pos ha]
      rcases List.mem_cons.1 h with h' | h'
      · rw [h', ha] at hp; exact absurd hp (by simp)
      · exact ih h'
    · rw [List.cons_append, List.dropWhile_cons_of_neg ha]
      simp only [List.length_cons, List.length_append]
      omega

/-- A text that starts with a visible character and holds another one after a line feed
is not trimmed down to its part before the line feed. -/
theorem jsTrim_ne (H X : String) (h : Char) (t : List Char) (hH : H.data = h :: t)
    (hh : isJsWhitespace h = false) (c : Char) (hc : c ∈ X.data)
    (hcw : isJsWhitespace c = false) :
    jsTrim (H ++ "\n" ++ X) ≠ H := by
  intro heq
  have hlen : (jsTrim (H ++ "\n" ++ X)).data.length = H.data.length := by rw [heq]
  have hn : ("\n".data : List Char) = [newline] := rfl
  have hneg : ¬ isJsWhitespace h = true := by simp [hh]
  have hdata : (H ++ "\n" ++ X).data = h :: (t ++ [newline] ++ X.data) := by
    rw [String.data_append, String.data_append, hH, hn]
    simp
  have hrev : (h :: (t ++ [newline] ++ X.data)).reverse
      = X.data.reverse ++ (newline :: (h :: t).reverse) := by
    simp
  have hlt := length_dropWhile_append isJsWhitespace c hcw (newline :: (h :: t).reverse)
    X.data.reverse (List.mem_reverse.2 hc)
  unfold jsTrim at hlen
  simp only [hdata, List.dropWhile_cons_of_neg hneg, hrev, List.length_reverse] at hlen
  rw [hlen, hH] at hlt
  simp at hlt

theorem jsTrim_fresh (filePath : Path) :
    jsTrim (headerString filePath ++ "\n") = headerString filePath := by
  cases filePath <;> decide

theorem headerString_visible (filePath : Path) :
    ∃ h t, (headerString filePath).data = h :: t ∧ isJsWhitespace h = false := by
  cases filePath
  · exact ⟨'I', _, rfl, by decide⟩
  · exact ⟨'S', _, rfl, by decide⟩

theorem content_appendFileSync (files : FileSystem) (filePath : Path) (data : String) :
    (files.appendFileSync filePath data).content filePath
      = some ((files.content filePath).getD "" ++ data) := by
  cases filePath <;> rfl

theorem comma_mem_joinWith_lines :
    ∀ lines : List String, lines ≠ [] → (∀ l ∈ lines, ',' ∈ l.data) →
      ',' ∈ (joinWith "\n" lines).data := by
  intro lines hne hc
  match lines, hne with
  | [a], _ => exact hc a (by simp)
  | a :: b :: rest, _ =>
    rw [joinWith_cons_cons, String.data_append, String.data_append]
    simp [hc a (by simp)]

/-- One call on a ledger that holds the header line and the lines `prev`: the lines of
the call are added, each after exactly one line feed. -/
theorem appendStep_content (filePath : Path) (files : FileSystem) (records : List Record)
    (prev : List String)
    (hc : files.content filePath
      = some (headerString filePath ++ "\n" ++ joinWith "\n" prev))
    (hprev : ∀ l ∈ prev, ',' ∈ l.data) (hne : records ≠ []) :
    (appendStep filePath files records).content filePath
      = some (headerString filePath ++ "\n" ++ joinWith "\n"
          (prev ++ (renderRecords filePath (headersOf filePath) records).getD [])) := by
  unfold appendStep appendToCsv csvString
  cases hr : renderRecords filePath (headersOf filePath) records with
  | none => simpa using hc
  | some lines =>
    obtain ⟨hlen, _⟩ := renderRecords_spec filePath records lines hr
    have hlines : lines ≠ [] := by
      intro h
      rw [h] at hlen
      exact hne (List.length_eq_zero.1 hlen.symm)
    have hex : files.existsSync filePath = true := by
      simp [FileSystem.existsSync, hc]
    have hhs : joinWith "," ((headersOf filePath).map (fun h => h.title))
        = headerString filePath := rfl
    simp only [Option.map_some', Option.getD_some, content_appendFileSync, hc, hex, hhs,
      Bool.not_true, Bool.false_or]
    cases prev with
    | nil =>
      simp [jsTrim_fresh, joinWith]
    | cons p ps =>
      obtain ⟨h, t, hH, hh⟩ := headerString_visible filePath
      have hcomma := comma_mem_joinWith_lines (p :: ps) (by simp) hprev
      have hne' := jsTrim_ne (headerString filePath) (joinWith "\n" (p :: ps)) h t hH hh
        ',' hcomma (by decide)
      have hb : (jsTrim (headerString filePath ++ "\n" ++ joinWith "\n" (p :: ps))
          == headerString filePath) = false := by simpa using hne'
      simp only [hb, Bool.not_false, if_true]
      rw [joinWith_append "\n" (p :: ps) lines (by simp) hlines]
      simp only [String.append_assoc]

theorem appendedLines_cons (filePath : Path) (records : List Record)
    (batches : List (List Record)) :
    appendedLines filePath (records :: batches)
      = (renderRecords filePath (headersOf filePath) records).getD []
        ++ appendedLines filePath batches := by
  simp [appendedLines]

theorem renderRecords_getD_comma (filePath : Path) (records : List Record) :
    ∀ l ∈ (renderRecords filePath (headersOf filePath) records).getD [], ',' ∈ l.data := by
  cases hr : renderRecords filePath (headersOf filePath) records with
  | none => intro l hl; simp at hl
  | some lines => exact (renderRecords_spec filePath records lines hr).2

theorem appendAll_content (filePath : Path) :
    ∀ (batches : List (List Record)) (files : FileSystem) (prev : List String),
      files.content filePath = some (headerString filePath ++ "\n" ++ joinWith "\n" prev) →
      (∀ l ∈ prev, ',' ∈ l.data) → (∀ records ∈ batches, records ≠ []) →
      (appendAll filePath files batches).content filePath
        = some (headerString filePath ++ "\n"
            ++ joinWith "\n" (prev ++ appendedLines filePath batches)) := by
  intro batches
  induction batches with
  | nil => intro files prev hc _ _; simpa [appendAll, appendedLines] using hc
  | cons records rest ih =>
    intro files prev hc hprev hne
    have hstep := appendStep_content filePath files records prev hc hprev
      (hne records (List.mem_cons_self _ _))
    have hprev' : ∀ l ∈ prev ++ (renderRecords filePath (headersOf filePath) records).getD [],
        ',' ∈ l.data := by
      intro l hl
      rcases List.mem_append.1 hl with h | h
      · exact hprev l h
      · exact renderRecords_getD_comma filePath records l h
    have := ih (appendStep filePath files records) _ hstep hprev'
      (fun r hr => hne r (List.mem_cons_of_mem _ hr))
    rw [appendAll, this, appendedLines_cons, List.append_assoc]

/-! ## Lines of a ledger -/

theorem fileLines_append_newline (rest : List Char) :
    ∀ a : List Char, newline ∉ a → fileLines (a ++ newline :: rest) = a :: fileLines rest := by
  intro a
  induction a with
  | nil => intro _; simp [fileLines]
  | cons c cs ih =>
    intro h
    have hc : c ≠ newline := fun h' => h (h' ▸ List.mem_cons_self _ _)
    have hcs : newline ∉ cs := fun h' => h (List.mem_cons_of_mem _ h')
    rw [List.cons_append, fileLines, if_neg hc, ih hcs]

theorem fileLines_of_no_newline :
    ∀ a : List Char, a ≠ [] → newline ∉ a → fileLines a = [a] := by
  intro a
  induction a with
  | nil => intro h _; exact absurd rfl h
  | cons c cs ih =>
    intro _ h
    have hc : c ≠ newline := fun h' => h (h' ▸ List.mem_cons_self _ _)
    have hcs : newline ∉ cs := fun h' => h (List.mem_cons_of_mem _ h')
    cases cs with
    | nil => rw [fileLines, if_neg hc, fileLines]
    | cons d ds => rw [fileLines, if_neg hc, ih (by simp) hcs]

theorem fileLines_joinWith :
    ∀ lines : List String, (∀ l ∈ lines, l.data ≠ []) → (∀ l ∈ lines, newline ∉ l.data) →
      fileLines (joinWith "\n" lines).data = lines.map (fun l => l.data) := by
  intro lines
  induction lines with
  | nil => intro _ _; rfl
  | cons a rest ih =>
    intro hne hnl
    cases rest with
    | nil =>
      simpa [joinWith] using
        fileLines_of_no_newline a.data (hne a (by simp)) (hnl a (by simp))
    | cons b rest' =>
      have hn : ("\n".data : List Char) = [newline] := rfl
      have ih' := ih (fun l hl => hne l (List.mem_cons_of_mem _ hl))
        (fun l hl => hnl l (List.mem_cons_of_mem _ hl))
      rw [joinWith_cons_cons, String.data_append, String.data_append, hn, List.append_assoc,
        List.singleton_append, fileLines_append_newline _ _ (hnl a (by simp)), ih']
      rfl

theorem headerString_no_newline (filePath : Path) :
    newline ∉ (headerString filePath).data := by
  cases filePath <;> decide

/-! ## Claims about the ledger store -/

theorem appendStep_extends (filePath : Path) (before : FileSystem) (records : List Record)
    (old : String) (h : before.content filePath = some old) :
    ∃ added, (appendStep filePath before records).content filePath = some (old ++ added) := by
  unfold appendStep appendToCsv
  cases csvString filePath records (headersOf filePath) with
  | none => exact ⟨"", by simpa using h⟩
  | some csv =>
    simp only [Option.getD_some, content_appendFileSync, h]
    exact ⟨_, rfl⟩

/-- C8 (as stated, refuted): on a freshly initialized score ledger, one append of one
row whose respondent id holds two consecutive line feeds leaves a blank line in the
file. -/
theorem blank_line_in_score_ledger :
    (initializeFiles ⟨none, none⟩).content marksFile = some (headerString marksFile ++ "\n")
      ∧ (appendAll marksFile (initializeFiles ⟨none, none⟩)
          [[[("studentID", .string "a\n\nb"), ("marks", .number 1)]]]).content marksFile
        = some "StudentID,Marks\na\n\nb,1"
      ∧ [] ∈ fileLines ("StudentID,Marks\na\n\nb,1").data := by
  decide

/-- C8 (amended): starting from a ledger that holds just its header line, after any
sequence of appends of one or more rows each the content is the header line followed by
every appended row in append order, each row after exactly one line feed (one row per
record); every append keeps the previous content as a prefix; and when no appended row
contains a line feed, the lines of the file are exactly the header and the appended
rows, none of them blank. -/
theorem append_integrity (filePath : Path) (files : FileSystem)
    (batches : List (List Record))
    (hfresh : files.content filePath = some (headerString filePath ++ "\n"))
    (hne : ∀ records ∈ batches, records ≠ []) :
    (appendAll filePath files batches).content filePath
        = some (headerString filePath ++ "\n"
            ++ joinWith "\n" (appendedLines filePath batches))
      ∧ (∀ records lines, renderRecords filePath (headersOf filePath) records = some lines →
          lines.length = records.length)
      ∧ (∀ (before : FileSystem) (records : List Record) (old : String),
          before.content filePath = some old →
          ∃ added, (appendStep filePath before records).content filePath
            = some (old ++ added))
      ∧ ((∀ line ∈ appendedLines filePath batches, newline ∉ line.data) →
          fileLines (headerString filePath ++ "\n"
              ++ joinWith "\n" (appendedLines filePath batches)).data
            = (headerString filePath :: appendedLines filePath batches).map (fun l => l.data)
          ∧ [] ∉ fileLines (headerString filePath ++ "\n"
              ++ joinWith "\n" (appendedLines filePath batches)).data) := by
  have hcontent := appendAll_content filePath batches files []
    (by simpa [joinWith] using hfresh) (by simp) hne
  rw [List.nil_append] at hcontent
  refine ⟨hcontent, fun records lines h => (renderRecords_spec filePath records lines h).1,
    fun before records old h => appendStep_extends filePath before records old h, ?_⟩
  intro hnl
  have hn : ("\n".data : List Char) = [newline] := rfl
  have hcomma : ∀ l ∈ appendedLines filePath batches, ',' ∈ l.data := by
    intro l h
    unfold appendedLines at h
    obtain ⟨records, _, hr⟩ := List.mem_flatMap.1 h
    exact renderRecords_getD_comma filePath records l hr
  have hvis : ∀ l ∈ appendedLines filePath batches, l.data ≠ [] := by
    intro l h hnil
    have := hcomma l h
    rw [hnil] at this
    simp at this
  have hsplit : fileLines (headerString filePath ++ "\n"
      ++ joinWith "\n" (appendedLines filePath batches)).data
      = (headerString filePath :: appendedLines filePath batches).map (fun l => l.data) := by
    rw [String.data_append, String.data_append, hn, List.append_assoc, List.singleton_append,
      fileLines_append_newline _ _ (headerString_no_newline filePath),
      fileLines_joinWith _ hvis hnl]
    rfl
  refine ⟨hsplit, ?_⟩
  rw [hsplit]
  intro hmem
  rcases List.mem_map.1 hmem with ⟨l, hl, hnil⟩
  rcases List.mem_cons.1 hl with h | h
  · obtain ⟨c, t, hH, _⟩ := headerString_visible filePath
    rw [h, hH] at hnil
    exact absurd hnil (by simp)
  · exact hvis l h hnil

theorem append_integrity_witness :
    (appendAll marksFile (initializeFiles ⟨none, none⟩)
        [[[("studentID", .string "s1"), ("marks", .number 7)]],
         [[("studentID", .string "s2"), ("marks", .number 3)],
          [("studentID", .string "s3"), ("marks", .number 10)]]]).content marksFile
      = some (headerString marksFile ++ "\n"
          ++ joinWith "\n" (appendedLines marksFile
              [[[("studentID", .string "s1"), ("marks", .number 7)]],
               [[("studentID", .string "s2"), ("marks", .number 3)],
                [("studentID", .string "s3"), ("marks", .number 10)]]])) :=
  (append_integrity marksFile (initializeFiles ⟨none, none⟩)
    [[[("studentID", .string "s1"), ("marks", .number 7)]],
     [[("studentID", .string "s2"), ("marks", .number 3)],
      [("studentID", .string "s3"), ("marks", .number 10)]]]
    (by decide) (by simp)).1

end SurveyBackend
